import Mathlib

/-!
Shallow embedding of `src/latency.cpp` (in-process latency measurement and
reporting engine) and proofs about the claims of its specification.

Machine integers are modelled as `Nat` with explicit reduction modulo `2 ^ w`
at every store where the C type can wrap (`uint32_t` bucket counters wrap
modulo `2 ^ 32`, `uint64_t` statistics wrap modulo `2 ^ 64`).  `abort()` and
the undefined dereference of a missing destination distribution in
`Latency_Sum` are modelled with an `Except` error value.
-/

namespace RedisLatency

/-- Modulus of a `uint32_t` store. -/
def M32 : Nat := 2 ^ 32

/-- Modulus of a `uint64_t` store. -/
def M64 : Nat := 2 ^ 64

/-- `LATENCY_MAX_DIST` from latency.cpp. -/
def LATENCY_MAX_DIST : Nat := 127

/-- `LATENCY_DIST_POOL_SIZE` from latency.cpp. -/
def LATENCY_DIST_POOL_SIZE : Nat := 5

/-- `LATENCY_NUM_BUCKETS` from latency.cpp. -/
def LATENCY_NUM_BUCKETS : Nat := 65

/-- `MAX_ITERATIONS` from latency.cpp. -/
def MAX_ITERATIONS : Nat := 1000000

/-- The character value of the default tag `'='` used by
`dmtr_record_latency`. -/
def eqTag : Nat := 61

/-- `Latency_Dist_t`: histogram over nanosecond values plus running
statistics for one sample type tag.  `buckets` is a total function on `Nat`;
only indices `0 ≤ b < 65` are ever read or written (they model the C array
`uint32_t buckets[LATENCY_NUM_BUCKETS]`). -/
structure Latency_Dist where
  min : Nat
  max : Nat
  total : Nat
  count : Nat
  buckets : Nat → Nat
  type : Nat

/-- `dmtr_latency`: a recorder.  `dists` maps a type tag to the index of its
distribution inside `distPool` (modelling the pointers
`Latency_Dist_t *dists[LATENCY_MAX_DIST]` into `distPool`); `none` models a
null pointer. -/
structure dmtr_latency where
  name : String
  dists : Nat → Option Nat
  distPool : Nat → Latency_Dist
  distPoolNext : Nat
  latencies : List Nat

/-- Errors: `poolFull` models the `abort()` call when a sixth distinct tag is
requested; `missingDest` models the undefined null dereference of
`dest->dists[i]` in the second loop of `Latency_Sum`. -/
inductive SumErr where
  | poolFull : SumErr
  | missingDest : SumErr
deriving DecidableEq

/-- The loop `while (val) { val >>= 1; ++bucket; }` of `LatencyAddHist`,
written with a structural fuel argument (the value halves every iteration,
so fuel `v` is always enough for argument `v`). -/
def bucketLoop : Nat → Nat → Nat → Nat
  | 0, _, bucket => bucket
  | fuel + 1, v, bucket =>
      if v = 0 then bucket else bucketLoop fuel (v / 2) (bucket + 1)

/-- The bucket index computed by `LatencyAddHist` for value `v`:
`int bucket = 0; val >>= 1; while (val) { val >>= 1; ++bucket; }`. -/
def bucketOf (v : Nat) : Nat := bucketLoop v (v / 2) 0

/-- Value of every pool slot right after `dmtr_new_latency`: the structure is
value-initialized (all fields zero) and then `d->min = ~0ll` is applied. -/
def freshDist : Latency_Dist :=
  { min := M64 - 1, max := 0, total := 0, count := 0, buckets := fun _ => 0
    type := 0 }

/-- `dmtr_new_latency`: a fresh recorder with the given name, no live
distributions and an empty raw-sample buffer. -/
def dmtr_new_latency (name : String) : dmtr_latency :=
  { name := name, dists := fun _ => none, distPool := fun _ => freshDist
    distPoolNext := 0, latencies := [] }

/-- `d->buckets[bucket] += count` (a `uint32_t` store) on pool slot `idx`. -/
def bumpBucket (l : dmtr_latency) (idx val count : Nat) : dmtr_latency :=
  let d := l.distPool idx
  let d' := { d with buckets := Function.update d.buckets (bucketOf val)
                       ((d.buckets (bucketOf val) + count) % M32) }
  { l with distPool := Function.update l.distPool idx d' }

/-- `LatencyAddHist`.  Returns the updated recorder together with the pool
index of the distribution that received the sample; `poolFull` models the
`abort()` on pool exhaustion. -/
def LatencyAddHist (l : dmtr_latency) (type val count : Nat) :
    Except SumErr (dmtr_latency × Nat) :=
  match l.dists type with
  | some idx => .ok (bumpBucket l idx val count, idx)
  | none =>
      if l.distPoolNext = LATENCY_DIST_POOL_SIZE then .error .poolFull
      else
        let idx := l.distPoolNext
        let d' := { l.distPool idx with type := type }
        let l' : dmtr_latency :=
          { l with dists := Function.update l.dists type (some idx)
                   distPool := Function.update l.distPool idx d'
                   distPoolNext := idx + 1 }
        .ok (bumpBucket l' idx val count, idx)

/-- `LatencyAddStat`: append the raw value while fewer than `MAX_ITERATIONS`
samples are buffered. -/
def LatencyAddStat (l : dmtr_latency) (val : Nat) : dmtr_latency :=
  if l.latencies.length < MAX_ITERATIONS
  then { l with latencies := l.latencies ++ [val] }
  else l

/-- `LatencyAdd`: one sample of value `val` under tag `type`. -/
def LatencyAdd (l : dmtr_latency) (type val : Nat) :
    Except SumErr dmtr_latency :=
  match LatencyAddHist l type val 1 with
  | .error e => .error e
  | .ok (l1, idx) =>
      let l2 := LatencyAddStat l1 val
      let d := l2.distPool idx
      let d' := { d with min := if val < d.min then val else d.min
                         max := if d.max < val then val else d.max
                         total := (d.total + val) % M64
                         count := (d.count + 1) % M64 }
      .ok { l2 with distPool := Function.update l2.distPool idx d' }

/-- `dmtr_record_latency`: the public recording entry point.  Returns the C
status value (always `0`) paired with the new state; a zero value is not
recorded. -/
def dmtr_record_latency (l : dmtr_latency) (ns : Nat) :
    Except SumErr (Nat × dmtr_latency) :=
  if ns = 0 then .ok (0, l)
  else
    match LatencyAdd l eqTag ns with
    | .error e => .error e
    | .ok l' => .ok (0, l')

/-- One iteration of the inner loop of the first phase of `Latency_Sum`: a
non-empty bucket `b` of the summand distribution `d` is re-added into `dest`
with representative value `1ll << b` and weight `d->buckets[b]`. -/
def sumStep1Bucket (d : Latency_Dist) (dest : dmtr_latency) (b : Nat) :
    Except SumErr dmtr_latency :=
  if d.buckets b = 0 then .ok dest
  else
    match LatencyAddHist dest d.type (2 ^ b) (d.buckets b) with
    | .error e => .error e
    | .ok (dest', _) => .ok dest'

/-- Inner loop of the first phase of `Latency_Sum` over the 65 buckets of the
summand distribution `d`. -/
def sumStep1Dist (dest : dmtr_latency) (d : Latency_Dist) :
    Except SumErr dmtr_latency :=
  (List.range LATENCY_NUM_BUCKETS).foldlM (sumStep1Bucket d) dest

/-- First phase of `Latency_Sum`: scan the summand's pool slots in order. -/
def sumStep1 (dest summand : dmtr_latency) : Except SumErr dmtr_latency :=
  (List.range summand.distPoolNext).foldlM
    (fun s i => sumStep1Dist s (summand.distPool i)) dest

/-- One iteration of the second phase of `Latency_Sum` for tag `t`: when the
summand has a distribution for `t`, fold its min/max/total/count into the
destination's distribution for `t`.  A missing destination distribution is
the null dereference of `dd` in the C code, modelled as `missingDest`. -/
def sumStep2Tag (summand : dmtr_latency) (dest : dmtr_latency) (t : Nat) :
    Except SumErr dmtr_latency :=
  match summand.dists t with
  | none => .ok dest
  | some j =>
      match dest.dists t with
      | none => .error .missingDest
      | some i =>
          let dd := dest.distPool i
          let ds := summand.distPool j
          let dd' := { dd with
                         min := if ds.min < dd.min then ds.min else dd.min
                         max := if dd.max < ds.max then ds.max else dd.max
                         total := (dd.total + ds.total) % M64
                         count := (dd.count + ds.count) % M64 }
          .ok { dest with distPool := Function.update dest.distPool i dd' }

/-- Second phase of `Latency_Sum` over all 127 possible tags. -/
def sumStep2 (dest summand : dmtr_latency) : Except SumErr dmtr_latency :=
  (List.range LATENCY_MAX_DIST).foldlM (sumStep2Tag summand) dest

/-- `Latency_Sum(dest, summand)`. -/
def Latency_Sum (dest summand : dmtr_latency) :
    Except SumErr dmtr_latency :=
  match sumStep1 dest summand with
  | .error e => .error e
  | .ok dest' => sumStep2 dest' summand

/-- The loop of `LatencyFmtNS` (structural fuel; the loop body runs at most
three times because of the `unit < 3` bound, so fuel 3 is exact). -/
def fmtLoop : Nat → Nat → Nat → Nat × Nat
  | 0, ns, unit => (ns, unit)
  | fuel + 1, ns, unit =>
      if 10000 ≤ ns ∧ unit < 3 then fmtLoop fuel (ns / 1000) (unit + 1)
      else (ns, unit)

/-- `LatencyFmtNS`: render a nanosecond value with unit scaling, as printed
by `sprintf(buf, "%lu %s", ns, units[unit])`. -/
def LatencyFmtNS (ns : Nat) : String :=
  let p := fmtLoop 3 ns 0
  toString p.1 ++ " " ++ (["ns", "us", "ms", "s"].getD p.2 "")

/-- The median-bucket scan of `Latency_Dump` (structural fuel, used with
`fuel = 65 - b`): starting from bucket `b` with running sum `accum`, the
first bucket whose running sum reaches `count / 2`, or 65 when the loop runs
off the end of the bucket array. -/
def medianLoop (d : Latency_Dist) (half : Nat) : Nat → Nat → Nat → Nat
  | 0, _, _ => LATENCY_NUM_BUCKETS
  | fuel + 1, accum, b =>
      if LATENCY_NUM_BUCKETS ≤ b then LATENCY_NUM_BUCKETS
      else
        let a := accum + d.buckets b
        if half ≤ a then b else medianLoop d half fuel a (b + 1)

/-- The per-distribution summary line printed by `Latency_Dump` for tag `t`,
when the recorder has a distribution for `t`:
`LATENCY <name>[/<tag>]: <min> <mean>/<median> <max> (<count> samples,
<total> total)`. -/
def summaryLine (l : dmtr_latency) (t : Nat) : Option String :=
  match l.dists t with
  | none => none
  | some i =>
      let d := l.distPool i
      let mb := medianLoop d (d.count / 2) LATENCY_NUM_BUCKETS 0 0
      let extra := if t = eqTag then ""
                   else "/" ++ String.singleton (Char.ofNat t)
      some ("LATENCY " ++ l.name ++ extra ++ ": " ++ LatencyFmtNS d.min
        ++ " " ++ LatencyFmtNS (d.total / d.count) ++ "/"
        ++ LatencyFmtNS (2 ^ mb) ++ " " ++ LatencyFmtNS d.max
        ++ " (" ++ toString d.count ++ " samples, "
        ++ LatencyFmtNS d.total ++ " total)")

/-- One row of the dumped ASCII histogram, abstracting the bar text:
`dots` is the collapsed `...` row, `zero b` an explicit zero row for bucket
`b`, `bar b total` a printed bucket with its total count. -/
inductive HistRow where
  | dots : HistRow
  | zero (b : Nat) : HistRow
  | bar (b total : Nat) : HistRow
deriving DecidableEq

/-- The histogram loop of `Latency_Dump` over bucket totals `total`
(structural fuel, used with `fuel = 65 - i`), starting at bucket `i` with
state `lastPrinted`: a non-empty bucket first renders its gap to the
previously printed bucket (a single `...` row when `lastPrinted < i - 3`,
otherwise one explicit zero row per skipped bucket) and then its own row. -/
def histRowsFrom (total : Nat → Nat) : Nat → Nat → Nat → List HistRow
  | 0, _, _ => []
  | fuel + 1, i, lastPrinted =>
      if LATENCY_NUM_BUCKETS ≤ i then []
      else if 0 < total i then
        (if lastPrinted + 3 < i then [HistRow.dots]
         else (List.range' (lastPrinted + 1) (i - (lastPrinted + 1))).map .zero)
          ++ HistRow.bar i (total i) :: histRowsFrom total fuel (i + 1) i
      else histRowsFrom total fuel (i + 1) lastPrinted

/-- The per-bucket total of `Latency_Dump`'s histogram phase: the bucket's
count summed over all live distributions (the C code walks the live type
list built from `dists`; the sum of at most 127 `uint32_t` values cannot
wrap the `uint64_t` accumulator). -/
def bucketTotal (l : dmtr_latency) (i : Nat) : Nat :=
  ((List.range LATENCY_MAX_DIST).map (fun t =>
    match l.dists t with
    | some j => (l.distPool j).buckets i
    | none => 0)).sum

/-- The rows of the dumped histogram for recorder `l` (`lastPrinted` starts
at `LATENCY_NUM_BUCKETS`). -/
def histRows (l : dmtr_latency) : List HistRow :=
  histRowsFrom (bucketTotal l) LATENCY_NUM_BUCKETS 0 LATENCY_NUM_BUCKETS

/-- Base-2 logarithm (structural fuel; fuel `n` is always enough for
argument `n`), agreeing with `Nat.log2`. -/
def log2F : Nat → Nat → Nat
  | 0, _ => 0
  | fuel + 1, n => if n < 2 then 0 else log2F fuel (n / 2) + 1

/-- Round a positive integer to 53 significant bits with ties to even: the
significand rounding performed by the IEEE-754 double multiplication in the
tail-percentile lines of `Latency_Dump`. -/
def roundSig53 (P : Nat) : Nat :=
  let k := log2F P P + 1 - 53
  if k = 0 then P
  else
    let q := P / 2 ^ k
    let r := P % 2 ^ k
    let half := 2 ^ (k - 1)
    if r < half then q * 2 ^ k
    else if half < r then (q + 1) * 2 ^ k
    else (if q % 2 = 0 then q * 2 ^ k else (q + 1) * 2 ^ k)

/-- Integer significand of the IEEE-754 double nearest `0.99` (the literal
in `Latency_Dump`), scaled by `2 ^ 53`. -/
def m99 : Nat := 8917127262193582

/-- Integer significand of the double nearest `0.999`, scaled by `2 ^ 53`. -/
def m999 : Nat := 8998192055486251

/-- Integer significand of the double nearest `0.9999`, scaled by
`2 ^ 53`. -/
def m9999 : Nat := 9006298534815518

/-- The tail index `(int)((float)N * c)` computed by `Latency_Dump`, where
`c` is the double with significand `m / 2 ^ 53`: for `N < 2 ^ 24` the
conversion of `N` to `float` is exact, the double product rounds
`N * m / 2 ^ 53` to a 53-bit significand, and the `int` cast truncates. -/
def tailIdx (m N : Nat) : Nat := roundSig53 (N * m) / 2 ^ 53

/-- The p99 index `(int)((float)l->latencies.size() * 0.99)`. -/
def idx99 (N : Nat) : Nat := tailIdx m99 N

/-- The p99.9 index `(int)((float)l->latencies.size() * 0.999)`. -/
def idx999 (N : Nat) : Nat := tailIdx m999 N

/-- The p99.99 index `(int)((float)l->latencies.size() * 0.9999)`. -/
def idx9999 (N : Nat) : Nat := tailIdx m9999 N

/-- Insert a value into an ascending list, keeping it sorted. -/
def insertSorted (x : Nat) : List Nat → List Nat
  | [] => [x]
  | y :: ys => if x ≤ y then x :: y :: ys else y :: insertSorted x ys

/-- Ascending insertion sort: the effect of
`sort(l->latencies.begin(), l->latencies.end())` in `Latency_Dump`. -/
def sortNs (xs : List Nat) : List Nat := xs.foldr insertSorted []

/-- The p99 tail value printed by `Latency_Dump`:
`l->latencies.at((int)((float)l->latencies.size() * 0.99))` after the
in-place ascending sort.  `none` models the `std::out_of_range` exception
thrown by `std::vector::at`. -/
def tailValue99 (l : dmtr_latency) : Option Nat :=
  (sortNs l.latencies).get? (idx99 l.latencies.length)

/-- Sum of the 65 bucket counters of a distribution. -/
def sumBuckets (d : Latency_Dist) : Nat :=
  ∑ b ∈ Finset.range LATENCY_NUM_BUCKETS, d.buckets b

/-- The distribution a recorder holds for tag `t`, when live. -/
def distFor (l : dmtr_latency) (t : Nat) : Option Latency_Dist :=
  (l.dists t).map l.distPool

/-- Record every value of `vs` in order through the public entry point. -/
def recordAll (l : dmtr_latency) (vs : List Nat) :
    Except SumErr dmtr_latency :=
  vs.foldlM (fun s v => (dmtr_record_latency s v).map (·.2)) l

/-!  ### Bucket index (claim C1)  -/

/-- Bit length of a natural number (0 for 0, `Nat.log2 v + 1` otherwise);
the number of iterations of the `while (val)` loop. -/
def bitlen (v : Nat) : Nat := if v = 0 then 0 else Nat.log2 v + 1

theorem log2_step (v : Nat) (h : 2 ≤ v) : Nat.log2 v = Nat.log2 (v / 2) + 1 := by
  conv_lhs => rw [Nat.log2]
  simp [h]

theorem bitlen_step (v : Nat) (h : v ≠ 0) : bitlen v = bitlen (v / 2) + 1 := by
  rcases Nat.lt_or_ge v 2 with h2 | h2
  · have hv : v = 1 := by omega
    subst hv
    simp [bitlen, Nat.log2]
  · have h2' : v / 2 ≠ 0 := by omega
    simp only [bitlen, if_neg h, if_neg h2']
    rw [log2_step v h2]

theorem bucketLoop_eq (fuel : Nat) : ∀ v acc, v ≤ fuel →
    bucketLoop fuel v acc = acc + bitlen v := by
  induction fuel with
  | zero =>
      intro v acc h
      have : v = 0 := Nat.le_zero.mp h
      subst this
      simp [bucketLoop, bitlen]
  | succ fuel ih =>
      intro v acc h
      by_cases h0 : v = 0
      · subst h0
        simp [bucketLoop, bitlen]
      · rw [bucketLoop, if_neg h0, ih (v / 2) (acc + 1) (by omega)]
        rw [bitlen_step v h0]
        omega

theorem bucketOf_eq_log2 (v : Nat) : bucketOf v = Nat.log2 v := by
  unfold bucketOf
  rw [bucketLoop_eq v (v / 2) 0 (by omega)]
  rcases Nat.lt_or_ge v 2 with h2 | h2
  · have hv : v / 2 = 0 := by omega
    rw [hv]
    interval_cases v <;> simp [bitlen, Nat.log2]
  · have h2' : v / 2 ≠ 0 := by omega
    simp only [bitlen, if_neg h2']
    rw [log2_step v h2]
    omega

theorem bucketOf_interval (v b : Nat) (h : 1 ≤ v) :
    bucketOf v = b ↔ 2 ^ b ≤ v ∧ v < 2 ^ (b + 1) := by
  rw [bucketOf_eq_log2]
  constructor
  · rintro rfl
    exact ⟨(Nat.le_log2 (by omega)).mp le_rfl,
           (Nat.log2_lt (by omega)).mp (by omega)⟩
  · rintro ⟨h1, h2⟩
    have hb1 := (Nat.le_log2 (show v ≠ 0 by omega)).mpr h1
    have hb2 := (Nat.log2_lt (show v ≠ 0 by omega)).mpr h2
    omega

/-- Claim C1: the bucket index computed when recording a 64-bit value `v`
equals `floor(log2 v)` for `v ≥ 1` and equals 0 for `v = 0`; bucket `b`
receives exactly the values in `[2^b, 2^(b+1))`; for 64-bit values the
index stays within `[0, 64]`. -/
theorem C1_bucket_index (v : Nat) :
    bucketOf 0 = 0 ∧
    (1 ≤ v → bucketOf v = Nat.log2 v) ∧
    (∀ b : Nat, 1 ≤ v → (bucketOf v = b ↔ 2 ^ b ≤ v ∧ v < 2 ^ (b + 1))) ∧
    (v < 2 ^ 64 → bucketOf v ≤ 64) := by
  refine ⟨rfl, fun _ => bucketOf_eq_log2 v,
          fun b h => bucketOf_interval v b h, fun h64 => ?_⟩
  rw [bucketOf_eq_log2]
  by_cases h0 : v = 0
  · subst h0
    simp [Nat.log2]
  · have := (Nat.log2_lt h0).mpr (show v < 2 ^ 65 by
      calc v < 2 ^ 64 := h64
        _ ≤ 2 ^ 65 := by norm_num)
    omega

/-- Witness for C1 at the concrete input 1000 (bucket 9). -/
theorem C1_bucket_index_witness :
    bucketOf 1000 = Nat.log2 1000 ∧ (2 ^ 9 ≤ 1000 ∧ 1000 < 2 ^ 10) ∧
    bucketOf 1000 ≤ 64 :=
  ⟨(C1_bucket_index 1000).2.1 (by decide),
   ((C1_bucket_index 1000).2.2.1 9 (by decide)).mp (by decide),
   (C1_bucket_index 1000).2.2.2 (by decide)⟩

/-!  ### Formatting and the dump summary line (claim C7)  -/

/-- The recorder of the C7 scenario: the values `[1, 2, 4, 1000, 1000000]`
recorded into a fresh recorder named `"t"`. -/
def c7run : Except SumErr dmtr_latency :=
  recordAll (dmtr_new_latency "t") [1, 2, 4, 1000, 1000000]

/-- Counterexample to claim C7: in the C7 scenario the maximum (1000000 ns)
is formatted as `1000 us`, not `1 ms` — the formatter divides by 1000 only
while the value is at least 10000, and 1000 < 10000. -/
theorem C7_counterexample :
    LatencyFmtNS 1000000 = "1000 us" ∧
    (c7run.toOption.bind fun l => (distFor l eqTag).map fun d =>
      LatencyFmtNS d.max) = some "1000 us" ∧
    "1000 us" ≠ "1 ms" := by
  refine ⟨by decide, by decide, by decide⟩

set_option maxRecDepth 8000 in
/-- Claim C7 as amended: after recording `[1, 2, 4, 1000, 1000000]` into a
fresh recorder named `"t"`, the dump summary shows `min` formatted as
`1 ns`, `max` (1000000 ns) formatted as `1000 us` (not `1 ms`), and a count
of 5 samples. -/
theorem C7_amended :
    (c7run.toOption.bind fun l => (distFor l eqTag).map fun d =>
      (LatencyFmtNS d.min, LatencyFmtNS d.max, d.count))
      = some ("1 ns", "1000 us", 5) ∧
    (c7run.toOption.bind fun l => summaryLine l eqTag) =
      some "LATENCY t: 1 ns 200 us/2 ns 1000 us (5 samples, 1001 us total)" := by
  exact ⟨by decide, by decide⟩

/-!  ### Pool exhaustion (claim C4)  -/

/-- Claim C4: a record or merge step whose tag is not yet in the pool while
the pool already holds 5 distinct tags reaches the `abort()` path (modelled
as the `poolFull` error) instead of silently ignoring the new tag. -/
theorem C4_pool_exhaustion (l : dmtr_latency) (t v c : Nat)
    (hnone : l.dists t = none) (hfull : l.distPoolNext = 5) :
    LatencyAddHist l t v c = .error .poolFull ∧
    LatencyAdd l t v = .error .poolFull := by
  have h1 : ∀ c', LatencyAddHist l t v c' = .error .poolFull := by
    intro c'
    unfold LatencyAddHist
    rw [hnone]
    simp [hfull, LATENCY_DIST_POOL_SIZE]
  refine ⟨h1 c, ?_⟩
  unfold LatencyAdd
  rw [h1 1]

/-- The recorder obtained by recording one sample under each of the five
distinct tags 0..4. -/
def c4state : dmtr_latency :=
  match [0, 1, 2, 3, 4].foldlM (fun s t => LatencyAdd s t 1)
      (dmtr_new_latency "p") with
  | .ok l => l
  | .error _ => dmtr_new_latency "p"

/-- Witness for C4: after five distinct tags, adding a sixth tag aborts. -/
theorem C4_pool_exhaustion_witness :
    c4state.dists 5 = none ∧ c4state.distPoolNext = 5 ∧
    LatencyAddHist c4state 5 7 3 = .error .poolFull ∧
    LatencyAdd c4state 5 7 = .error .poolFull :=
  ⟨by decide, by decide,
   (C4_pool_exhaustion c4state 5 7 3 (by decide) (by decide)).1,
   (C4_pool_exhaustion c4state 5 7 3 (by decide) (by decide)).2⟩

/-!  ### Recording zero (claim C9)  -/

/-- Claim C9: `record(handle, 0)` succeeds with status 0 and leaves the
recorder unchanged, and whenever `record` returns at all its status is 0. -/
theorem C9_record_status (l : dmtr_latency) (ns : Nat) :
    dmtr_record_latency l 0 = .ok (0, l) ∧
    (∀ p, dmtr_record_latency l ns = .ok p → p.1 = 0) := by
  constructor
  · simp [dmtr_record_latency]
  · intro p hp
    unfold dmtr_record_latency at hp
    split at hp
    · have h := Except.ok.inj hp
      subst h
      rfl
    · split at hp
      · exact absurd hp (by simp)
      · have h := Except.ok.inj hp
        subst h
        rfl

/-- The result of recording the value 7 into a fresh recorder. -/
def c9wp : Nat × dmtr_latency :=
  match dmtr_record_latency (dmtr_new_latency "w") 7 with
  | .ok p => p
  | .error _ => (1, dmtr_new_latency "w")

/-- Witness for C9 at a fresh recorder and the value 7. -/
theorem C9_record_status_witness :
    dmtr_record_latency (dmtr_new_latency "w") 0 =
      .ok (0, dmtr_new_latency "w") ∧ c9wp.1 = 0 :=
  ⟨(C9_record_status (dmtr_new_latency "w") 7).1,
   (C9_record_status (dmtr_new_latency "w") 7).2 c9wp rfl⟩

/-!  ### Tail-percentile indices (claim C6)  -/

theorem log2F_eq (fuel : Nat) : ∀ n, n ≤ fuel → log2F fuel n = Nat.log2 n := by
  induction fuel with
  | zero =>
      intro n h
      have hn : n = 0 := by omega
      subst hn
      simp [log2F, Nat.log2]
  | succ fuel ih =>
      intro n h
      by_cases h2 : n < 2
      · have : log2F (fuel + 1) n = 0 := by simp [log2F, h2]
        rw [this]
        interval_cases n <;> simp [Nat.log2]
      · have : log2F (fuel + 1) n = log2F fuel (n / 2) + 1 := by
          simp [log2F, h2]
        rw [this, ih (n / 2) (by omega), log2_step n (by omega)]

/-- Rounding to 53 significant bits moves a value below `2 ^ 73` by at most
`2 ^ 19` (half an ulp). -/
theorem roundSig53_near (P : Nat) (h : P < 2 ^ 73) :
    P ≤ roundSig53 P + 2 ^ 19 ∧ roundSig53 P ≤ P + 2 ^ 19 := by
  simp only [roundSig53]
  rw [log2F_eq P P le_rfl]
  by_cases hk0 : Nat.log2 P + 1 - 53 = 0
  · rw [if_pos hk0]
    omega
  · rw [if_neg hk0]
    have hP0 : P ≠ 0 := by
      intro h0
      rw [h0] at hk0
      simp [Nat.log2] at hk0
    have hlog : Nat.log2 P < 73 := (Nat.log2_lt hP0).mpr h
    set k := Nat.log2 P + 1 - 53 with hkdef
    have hk20 : k ≤ 20 := by omega
    have hk1 : 1 ≤ k := by omega
    have hpow : 2 ^ k = 2 ^ (k - 1) * 2 := by
      rw [← pow_succ]
      congr 1
      omega
    have hhalf : 2 ^ (k - 1) ≤ 2 ^ 19 :=
      Nat.pow_le_pow_right (by norm_num) (by omega)
    have e1 : P / 2 ^ k * 2 ^ k + P % 2 ^ k = P := Nat.div_add_mod' P (2 ^ k)
    have e2 : (P / 2 ^ k + 1) * 2 ^ k = P / 2 ^ k * 2 ^ k + 2 ^ k := by ring
    have hmod : P % 2 ^ k < 2 ^ k := Nat.mod_lt _ (by positivity)
    rcases Nat.lt_trichotomy (P % 2 ^ k) (2 ^ (k - 1)) with hr | hr | hr
    · rw [if_pos hr]
      omega
    · rw [if_neg (by omega), if_neg (by omega)]
      by_cases hq : P / 2 ^ k % 2 = 0
      · rw [if_pos hq]
        omega
      · rw [if_neg hq]
        omega
    · rw [if_neg (by omega), if_pos hr]
      omega

/-- Claim C6 as amended: for a raw-sample buffer of size `N` with
`1000 ≤ N ≤ 1000000` (the buffer never exceeds `MAX_ITERATIONS` entries),
the tail-percentile indices of `Latency_Dump` satisfy
`idx99 N < idx999 N ≤ idx9999 N ≤ N - 1`; the comparison between the p99.9
and p99.99 indices is non-strict (an equality at `N = 1000`), not strict as
claimed. -/
theorem C6_amended (N : Nat) (h1 : 1000 ≤ N) (h2 : N ≤ 1000000) :
    idx99 N < idx999 N ∧ idx999 N ≤ idx9999 N ∧ idx9999 N ≤ N - 1 := by
  simp only [idx99, idx999, idx9999, tailIdx, m99, m999, m9999]
  have hb99 : N * 8917127262193582 < 2 ^ 73 := by
    calc N * 8917127262193582 ≤ 1000000 * 8917127262193582 :=
          Nat.mul_le_mul_right _ h2
      _ < 2 ^ 73 := by norm_num
  have hb999 : N * 8998192055486251 < 2 ^ 73 := by
    calc N * 8998192055486251 ≤ 1000000 * 8998192055486251 :=
          Nat.mul_le_mul_right _ h2
      _ < 2 ^ 73 := by norm_num
  have hb9999 : N * 9006298534815518 < 2 ^ 73 := by
    calc N * 9006298534815518 ≤ 1000000 * 9006298534815518 :=
          Nat.mul_le_mul_right _ h2
      _ < 2 ^ 73 := by norm_num
  obtain ⟨r99a, r99b⟩ := roundSig53_near (N * 8917127262193582) hb99
  obtain ⟨r999a, r999b⟩ := roundSig53_near (N * 8998192055486251) hb999
  obtain ⟨r9999a, r9999b⟩ := roundSig53_near (N * 9006298534815518) hb9999
  refine ⟨?_, ?_, ?_⟩
  · have key : roundSig53 (N * 8917127262193582) + 2 ^ 53 ≤
        roundSig53 (N * 8998192055486251) := by omega
    calc roundSig53 (N * 8917127262193582) / 2 ^ 53 + 1
        = (roundSig53 (N * 8917127262193582) + 2 ^ 53) / 2 ^ 53 :=
          (Nat.add_div_right _ (by positivity)).symm
      _ ≤ roundSig53 (N * 8998192055486251) / 2 ^ 53 :=
          Nat.div_le_div_right key
  · exact Nat.div_le_div_right (by omega)
  · have key : roundSig53 (N * 9006298534815518) < N * 2 ^ 53 := by omega
    have := (Nat.div_lt_iff_lt_mul (show 0 < 2 ^ 53 by positivity)).mpr
      (by omega : roundSig53 (N * 9006298534815518) < N * 2 ^ 53)
    omega

/-- Witness for the amended C6 at `N = 2000`. -/
theorem C6_amended_witness :
    (1000 ≤ 2000 ∧ 2000 ≤ 1000000) ∧
    (idx99 2000 < idx999 2000 ∧ idx999 2000 ≤ idx9999 2000 ∧
     idx9999 2000 ≤ 2000 - 1) :=
  ⟨⟨by decide, by decide⟩, C6_amended 2000 (by decide) (by decide)⟩

/-- Counterexample to claim C6: at buffer size `N = 1000` the p99.9 and
p99.99 indices coincide (both 999), so the claimed strict chain
`floor(N*0.999) < floor(N*0.9999)` fails (with exact floors as well:
`floor(999.9) = 999 = floor(999)`). -/
theorem C6_counterexample :
    idx99 1000 = 990 ∧ idx999 1000 = 999 ∧ idx9999 1000 = 999 ∧
    ¬(idx999 1000 < idx9999 1000) := by
  refine ⟨by decide, by decide, by decide, by decide⟩

/-!  ### Histogram gap collapsing (claim C8)  -/

theorem histRows_reach (total : Nat → Nat) :
    ∀ d i last, i + d < 65 → total (i + d) ≠ 0 →
    ∃ pre, histRowsFrom total (65 - i) i last =
      pre ++ HistRow.bar (i + d) (total (i + d)) ::
        histRowsFrom total (64 - (i + d)) (i + d + 1) (i + d) := by
  intro d
  induction d with
  | zero =>
      intro i last hlt htot
      simp only [Nat.add_zero] at hlt htot ⊢
      have hf : 65 - i = (64 - i) + 1 := by omega
      rw [hf]
      simp only [histRowsFrom, LATENCY_NUM_BUCKETS]
      rw [if_neg (by omega : ¬ 65 ≤ i), if_pos (by omega : 0 < total i)]
      exact ⟨_, rfl⟩
  | succ d ih =>
      intro i last hlt htot
      have he : i + (d + 1) = i + 1 + d := by omega
      rw [he] at hlt htot ⊢
      have hf : 65 - i = (65 - (i + 1)) + 1 := by omega
      rw [hf]
      simp only [histRowsFrom, LATENCY_NUM_BUCKETS]
      rw [if_neg (by omega : ¬ 65 ≤ i)]
      obtain ⟨pre', hpre'⟩ := ih (i + 1) i hlt htot
      by_cases h0 : 0 < total i
      · rw [if_pos h0, hpre']
        refine ⟨(if last + 3 < i then [HistRow.dots]
                 else (List.range' (last + 1) (i - (last + 1))).map
                   HistRow.zero) ++ HistRow.bar i (total i) :: pre', ?_⟩
        simp [List.append_assoc]
      · rw [if_neg h0]
        obtain ⟨pre'', hpre''⟩ := ih (i + 1) last hlt htot
        exact ⟨pre'', hpre''⟩

theorem histRows_gap (total : Nat → Nat) (p q : Nat) (hpq : p < q)
    (hq : q < 65) (htq : total q ≠ 0) :
    ∀ d i, i + d = q → p < i → (∀ j, i ≤ j → j < q → total j = 0) →
    histRowsFrom total (65 - i) i p =
      (if p + 3 < q then [HistRow.dots]
       else (List.range' (p + 1) (q - (p + 1))).map HistRow.zero) ++
        HistRow.bar q (total q) :: histRowsFrom total (64 - q) (q + 1) q := by
  intro d
  induction d with
  | zero =>
      intro i hi hpi hz
      have hiq : i = q := by omega
      subst hiq
      have hf : 65 - i = (64 - i) + 1 := by omega
      rw [hf]
      simp only [histRowsFrom, LATENCY_NUM_BUCKETS]
      rw [if_neg (by omega : ¬ 65 ≤ i), if_pos (by omega : 0 < total i)]
  | succ d ih =>
      intro i hi hpi hz
      have hiq : i < q := by omega
      have hf : 65 - i = (65 - (i + 1)) + 1 := by omega
      rw [hf]
      simp only [histRowsFrom, LATENCY_NUM_BUCKETS]
      rw [if_neg (by omega : ¬ 65 ≤ i),
          if_neg (by rw [hz i le_rfl hiq]; omega : ¬ 0 < total i)]
      exact ih (i + 1) (by omega) (by omega)
        (fun j hj1 hj2 => hz j (by omega) hj2)

/-- Claim C8 as amended: in the dumped histogram, a run of consecutive
zero-total buckets lying strictly between two printed buckets `p < q` is
rendered as explicit zero rows when the run length `q - p - 1` is at most
**2**, and collapsed into a single `...` row when the run length is **3 or
more** (the code tests `lastPrinted < i - 3`, i.e. it collapses exactly
when `p + 3 < q`). -/
theorem C8_amended (l : dmtr_latency) (p q : Nat) (hpq : p < q) (hq : q < 65)
    (hp : bucketTotal l p ≠ 0) (htq : bucketTotal l q ≠ 0)
    (hz : ∀ j, p < j → j < q → bucketTotal l j = 0) :
    ∃ pre, histRows l =
      pre ++ HistRow.bar p (bucketTotal l p) ::
        ((if q - (p + 1) ≤ 2
          then (List.range' (p + 1) (q - (p + 1))).map HistRow.zero
          else [HistRow.dots]) ++
         HistRow.bar q (bucketTotal l q) ::
           histRowsFrom (bucketTotal l) (64 - q) (q + 1) q) := by
  obtain ⟨pre, hpre⟩ := histRows_reach (bucketTotal l) p 0 65
    (by omega) (by simpa using hp)
  simp only [Nat.zero_add, Nat.sub_zero] at hpre
  have hgap := histRows_gap (bucketTotal l) p q hpq hq htq (q - (p + 1))
    (p + 1) (by omega) (by omega) (fun j hj1 hj2 => hz j (by omega) hj2)
  have he : 64 - p = 65 - (p + 1) := by omega
  rw [he, hgap] at hpre
  have hif : (if p + 3 < q then [HistRow.dots]
      else (List.range' (p + 1) (q - (p + 1))).map HistRow.zero) =
      (if q - (p + 1) ≤ 2
       then (List.range' (p + 1) (q - (p + 1))).map HistRow.zero
       else [HistRow.dots]) := by
    by_cases h : p + 3 < q
    · rw [if_pos h, if_neg (by omega)]
    · rw [if_neg h, if_pos (by omega)]
  rw [hif] at hpre
  exact ⟨pre, by rw [show histRows l =
    histRowsFrom (bucketTotal l) 65 0 65 from rfl, hpre]⟩

/-- The recorder of the C8 counterexample: values 1 and 16 recorded into a
fresh recorder, so buckets 0 and 4 are non-empty and buckets 1, 2, 3 form a
zero run of length exactly 3 between two printed buckets. -/
def c8state : dmtr_latency :=
  match recordAll (dmtr_new_latency "h") [1, 16] with
  | .ok l => l
  | .error _ => dmtr_new_latency "h"

set_option maxRecDepth 16000 in
/-- Counterexample to claim C8: a zero run of length exactly 3 (buckets
1..3, between printed buckets 0 and 4) is rendered as a single `...` row,
not as explicit zero rows as the claim (`at most 3 buckets → explicit`)
requires. -/
theorem C8_counterexample :
    bucketTotal c8state 0 = 1 ∧ bucketTotal c8state 4 = 1 ∧
    bucketTotal c8state 1 = 0 ∧ bucketTotal c8state 2 = 0 ∧
    bucketTotal c8state 3 = 0 ∧
    histRows c8state = [HistRow.bar 0 1, HistRow.dots, HistRow.bar 4 1] := by
  refine ⟨by decide, by decide, by decide, by decide, by decide, by decide⟩

set_option maxRecDepth 16000 in
/-- Witness for the amended C8 on the same concrete recorder: the run of
three zero buckets is collapsed to a `...` row. -/
theorem C8_amended_witness :
    bucketTotal c8state 0 = 1 ∧ bucketTotal c8state 4 = 1 ∧
    bucketTotal c8state 2 = 0 ∧ HistRow.dots ∈ histRows c8state := by
  refine ⟨by decide, by decide, by decide, ?_⟩
  obtain ⟨pre, hpre⟩ := C8_amended c8state 0 4 (by decide) (by decide)
    (by decide) (by decide) (by intro j h1 h2; interval_cases j <;> decide)
  rw [hpre]
  simp

/-!  ### Merge does not touch the raw-sample buffer (claim C10)  -/

theorem LatencyAddHist_latencies (l : dmtr_latency) (t v c : Nat)
    (l' : dmtr_latency) (i : Nat) (h : LatencyAddHist l t v c = .ok (l', i)) :
    l'.latencies = l.latencies := by
  unfold LatencyAddHist at h
  split at h
  · cases h
    rfl
  · split at h
    · exact absurd h (by simp)
    · cases h
      rfl

theorem foldlM_latencies {α : Type} (f : dmtr_latency → α →
      Except SumErr dmtr_latency)
    (hf : ∀ s a s', f s a = .ok s' → s'.latencies = s.latencies) :
    ∀ (xs : List α) (s s' : dmtr_latency), xs.foldlM f s = .ok s' →
      s'.latencies = s.latencies := by
  intro xs
  induction xs with
  | nil =>
      intro s s' h
      simp only [List.foldlM_nil] at h
      cases Except.ok.inj h
      rfl
  | cons x xs ih =>
      intro s s' h
      rw [List.foldlM_cons] at h
      cases hfx : f s x with
      | error e =>
          rw [hfx] at h
          cases h
      | ok s1 =>
          rw [hfx] at h
          exact (ih s1 s' h).trans (hf s x s1 hfx)

theorem sumStep1Bucket_latencies (d : Latency_Dist) (s : dmtr_latency)
    (b : Nat) (s' : dmtr_latency) (h : sumStep1Bucket d s b = .ok s') :
    s'.latencies = s.latencies := by
  unfold sumStep1Bucket at h
  split at h
  · cases Except.ok.inj h
    rfl
  · split at h
    · exact absurd h (by simp)
    · cases Except.ok.inj h
      exact LatencyAddHist_latencies _ _ _ _ _ _ (by assumption)

theorem sumStep2Tag_latencies (summand s : dmtr_latency) (t : Nat)
    (s' : dmtr_latency) (h : sumStep2Tag summand s t = .ok s') :
    s'.latencies = s.latencies := by
  unfold sumStep2Tag at h
  split at h
  · cases Except.ok.inj h
    rfl
  · split at h
    · exact absurd h (by simp)
    · cases Except.ok.inj h
      rfl

theorem Latency_Sum_latencies (dest summand r : dmtr_latency)
    (h : Latency_Sum dest summand = .ok r) :
    r.latencies = dest.latencies := by
  unfold Latency_Sum at h
  cases h1 : sumStep1 dest summand with
  | error e =>
      rw [h1] at h
      exact absurd h (by simp)
  | ok dest' =>
      rw [h1] at h
      have e1 : dest'.latencies = dest.latencies :=
        foldlM_latencies _ (fun s a s' hs =>
          foldlM_latencies _ (fun u b u' hu =>
            sumStep1Bucket_latencies _ _ _ _ hu) _ s s' hs) _ _ _ h1
      have e2 : r.latencies = dest'.latencies :=
        foldlM_latencies _ (fun s a s' hs =>
          sumStep2Tag_latencies _ _ _ _ hs) _ _ _ h
      exact e2.trans e1

/-- The summand of the C10 scenario: one sample (value 5) recorded into a
fresh recorder named `"s"`. -/
def c10summand : dmtr_latency :=
  match recordAll (dmtr_new_latency "s") [5] with
  | .ok l => l
  | .error _ => dmtr_new_latency "s"

/-- Merging the C10 summand into a fresh recorder that never recorded. -/
def c10merged : Except SumErr dmtr_latency :=
  Latency_Sum (dmtr_new_latency "d") c10summand

set_option maxRecDepth 16000 in
/-- Claim C10: `Latency_Sum` never modifies the destination's raw-sample
buffer (and, the embedding being functional, never the summand's), so
merging a summand with samples into a recorder that never recorded yields a
live distribution with an empty raw-sample buffer, and the subsequent
dump's tail-percentile lookup `latencies.at(...)` indexes out of range
(modelled by `none`). -/
theorem C10_merge_frame (dest summand r : dmtr_latency)
    (h : Latency_Sum dest summand = .ok r) :
    r.latencies = dest.latencies ∧
    c10merged.toOption.map
      (fun m => (m.distPoolNext, m.latencies, tailValue99 m)) =
      some (1, [], none) :=
  ⟨Latency_Sum_latencies dest summand r h, by decide⟩

/-- The merged state of the C10 scenario. -/
def c10mergedState : dmtr_latency :=
  match c10merged with
  | .ok l => l
  | .error _ => dmtr_new_latency "d"

set_option maxRecDepth 16000 in
/-- Witness for C10 at the concrete scenario. -/
theorem C10_merge_frame_witness :
    Latency_Sum (dmtr_new_latency "d") c10summand = .ok c10mergedState ∧
    c10mergedState.latencies = (dmtr_new_latency "d").latencies :=
  ⟨rfl, (C10_merge_frame (dmtr_new_latency "d") c10summand
      c10mergedState rfl).1⟩

/-!  ### Generic facts about `LatencyAddHist` and the merge folds  -/

theorem bumpBucket_dists (l : dmtr_latency) (idx v c : Nat) :
    (bumpBucket l idx v c).dists = l.dists := rfl

theorem bumpBucket_poolNext (l : dmtr_latency) (idx v c : Nat) :
    (bumpBucket l idx v c).distPoolNext = l.distPoolNext := rfl

theorem bumpBucket_name (l : dmtr_latency) (idx v c : Nat) :
    (bumpBucket l idx v c).name = l.name := rfl

theorem bumpBucket_lat (l : dmtr_latency) (idx v c : Nat) :
    (bumpBucket l idx v c).latencies = l.latencies := rfl

theorem bumpBucket_pool_ne (l : dmtr_latency) (idx v c i : Nat)
    (h : i ≠ idx) : (bumpBucket l idx v c).distPool i = l.distPool i := by
  unfold bumpBucket
  exact Function.update_noteq h _ _

theorem bumpBucket_pool_self (l : dmtr_latency) (idx v c : Nat) :
    (bumpBucket l idx v c).distPool idx =
      { l.distPool idx with
          buckets := Function.update (l.distPool idx).buckets (bucketOf v)
                       (((l.distPool idx).buckets (bucketOf v) + c) % M32) } := by
  unfold bumpBucket
  exact Function.update_same _ _ _

theorem addHist_existing (l : dmtr_latency) (t v c idx : Nat)
    (h : l.dists t = some idx) :
    LatencyAddHist l t v c = .ok (bumpBucket l idx v c, idx) := by
  unfold LatencyAddHist
  rw [h]

/-- The recorder after the pool-slot allocation inside `LatencyAddHist`. -/
def allocDist (l : dmtr_latency) (t : Nat) : dmtr_latency :=
  let d' := { l.distPool l.distPoolNext with type := t }
  { l with dists := Function.update l.dists t (some l.distPoolNext)
           distPool := Function.update l.distPool l.distPoolNext d'
           distPoolNext := l.distPoolNext + 1 }

theorem addHist_new (l : dmtr_latency) (t v c : Nat)
    (h : l.dists t = none) (hp : l.distPoolNext ≠ 5) :
    LatencyAddHist l t v c =
      .ok (bumpBucket (allocDist l t) l.distPoolNext v c, l.distPoolNext) := by
  unfold LatencyAddHist
  rw [h]
  rw [if_neg (by simpa [LATENCY_DIST_POOL_SIZE] using hp)]
  rfl

theorem addHist_full (l : dmtr_latency) (t v c : Nat)
    (h : l.dists t = none) (hp : l.distPoolNext = 5) :
    LatencyAddHist l t v c = .error .poolFull := by
  unfold LatencyAddHist
  rw [h]
  rw [if_pos (by simpa [LATENCY_DIST_POOL_SIZE] using hp)]

/-- A fold whose every step is the identity returns its input unchanged. -/
theorem foldlM_id {α : Type} (f : dmtr_latency → α → Except SumErr dmtr_latency)
    (xs : List α) (hxs : ∀ a, a ∈ xs → ∀ s, f s a = .ok s) :
    ∀ s, xs.foldlM f s = .ok s := by
  induction xs with
  | nil => intro s; rfl
  | cons x xs ih =>
      intro s
      rw [List.foldlM_cons, hxs x (by simp)]
      exact ih (fun a ha s' => hxs a (by simp [ha]) s') s

/-- Properties preserved by every step of a fold are preserved by the
fold. -/
theorem foldlM_preserve {α : Type} (P : dmtr_latency → Prop)
    (f : dmtr_latency → α → Except SumErr dmtr_latency)
    (hf : ∀ s a s', P s → f s a = .ok s' → P s') :
    ∀ (xs : List α) (s s' : dmtr_latency), P s → xs.foldlM f s = .ok s' →
      P s' := by
  intro xs
  induction xs with
  | nil =>
      intro s s' hP h
      simp only [List.foldlM_nil] at h
      cases Except.ok.inj h
      exact hP
  | cons x xs ih =>
      intro s s' hP h
      rw [List.foldlM_cons] at h
      cases hfx : f s x with
      | error e => rw [hfx] at h; cases h
      | ok s1 => rw [hfx] at h; exact ih s1 s' (hf s x s1 hP hfx) h

theorem bucketOf_pow (b : Nat) : bucketOf (2 ^ b) = b :=
  (bucketOf_interval (2 ^ b) b Nat.one_le_two_pow).mpr
    ⟨le_rfl, Nat.pow_lt_pow_right (by norm_num) (by omega)⟩

/-- Equality of the statistics fields of two distributions. -/
def statsEq (d1 d2 : Latency_Dist) : Prop :=
  d1.count = d2.count ∧ d1.total = d2.total ∧ d1.min = d2.min ∧
  d1.max = d2.max ∧ d1.type = d2.type

theorem statsEq_refl (d : Latency_Dist) : statsEq d d :=
  ⟨rfl, rfl, rfl, rfl, rfl⟩

/-- Effect of the inner bucket loop of `Latency_Sum`'s first phase on a
destination that already has a distribution (at pool index `idx`) for the
summand distribution's type: every bucket in the scanned range receives the
summand's bucket count modulo `2 ^ 32`, and nothing else changes. -/
theorem sumStep1Dist_aux (d : Latency_Dist) (idx : Nat) :
    ∀ (len a : Nat) (s : dmtr_latency),
      s.dists d.type = some idx →
      (∀ b, (s.distPool idx).buckets b < M32) →
      ∃ s', (List.range' a len).foldlM (sumStep1Bucket d) s = .ok s' ∧
        s'.dists = s.dists ∧ s'.distPoolNext = s.distPoolNext ∧
        s'.latencies = s.latencies ∧ s'.name = s.name ∧
        (∀ i, i ≠ idx → s'.distPool i = s.distPool i) ∧
        statsEq (s'.distPool idx) (s.distPool idx) ∧
        (∀ b, a ≤ b → b < a + len → (s'.distPool idx).buckets b =
          ((s.distPool idx).buckets b + d.buckets b) % M32) ∧
        (∀ b, b < a ∨ a + len ≤ b → (s'.distPool idx).buckets b =
          (s.distPool idx).buckets b) := by
  intro len
  induction len with
  | zero =>
      intro a s hd hred
      refine ⟨s, rfl, rfl, rfl, rfl, rfl, fun _ _ => rfl, statsEq_refl _,
        fun b h1 h2 => absurd h2 (by omega), fun b _ => rfl⟩
  | succ len ih =>
      intro a s hd hred
      rw [List.range'_succ, List.foldlM_cons]
      by_cases hz : d.buckets a = 0
      · have hstep : sumStep1Bucket d s a = .ok s := by
          unfold sumStep1Bucket
          rw [if_pos hz]
        rw [hstep]
        obtain ⟨s', h1, h2, h3, h4, h5, h6, h7, h8, h9⟩ := ih (a + 1) s hd hred
        refine ⟨s', h1, h2, h3, h4, h5, h6, h7, ?_, ?_⟩
        · intro b hb1 hb2
          by_cases hba : b = a
          · subst hba
            rw [h9 b (by omega), hz]
            exact (Nat.mod_eq_of_lt (hred b)).symm
          · exact h8 b (by omega) (by omega)
        · intro b hb
          exact h9 b (by omega)
      · have hstep : sumStep1Bucket d s a =
            .ok (bumpBucket s idx (2 ^ a) (d.buckets a)) := by
          unfold sumStep1Bucket
          rw [if_neg hz, addHist_existing s d.type (2 ^ a) (d.buckets a) idx hd]
        rw [hstep]
        have hd1 : (bumpBucket s idx (2 ^ a) (d.buckets a)).dists d.type =
            some idx := by
          rw [bumpBucket_dists]
          exact hd
        have hpool1 : (bumpBucket s idx (2 ^ a) (d.buckets a)).distPool idx =
            { s.distPool idx with
                buckets := Function.update (s.distPool idx).buckets a
                  (((s.distPool idx).buckets a + d.buckets a) % M32) } := by
          rw [bumpBucket_pool_self, bucketOf_pow]
        have hred1 : ∀ b,
            ((bumpBucket s idx (2 ^ a) (d.buckets a)).distPool idx).buckets b
              < M32 := by
          intro b
          rw [hpool1]
          by_cases hba : b = a
          · subst hba
            simp only [Function.update_same]
            exact Nat.mod_lt _ (by norm_num [M32])
          · simp only [Function.update_noteq hba]
            exact hred b
        obtain ⟨s', h1, h2, h3, h4, h5, h6, h7, h8, h9⟩ :=
          ih (a + 1) (bumpBucket s idx (2 ^ a) (d.buckets a)) hd1 hred1
        refine ⟨s', h1, by rw [h2, bumpBucket_dists],
          by rw [h3, bumpBucket_poolNext], by rw [h4, bumpBucket_lat],
          by rw [h5, bumpBucket_name], ?_, ?_, ?_, ?_⟩
        · intro i hi
          rw [h6 i hi, bumpBucket_pool_ne _ _ _ _ _ hi]
        · obtain ⟨e1, e2, e3, e4, e5⟩ := h7
          rw [hpool1] at e1 e2 e3 e4 e5
          exact ⟨e1, e2, e3, e4, e5⟩
        · intro b hb1 hb2
          by_cases hba : b = a
          · subst hba
            rw [h9 b (by omega), hpool1]
            simp only [Function.update_same]
          · rw [h8 b (by omega) (by omega), hpool1]
            simp only [Function.update_noteq hba]
        · intro b hb
          have hba : b ≠ a := by omega
          rw [h9 b (by omega), hpool1]
          simp only [Function.update_noteq hba]

theorem allocDist_dists (l : dmtr_latency) (t : Nat) :
    (allocDist l t).dists = Function.update l.dists t (some l.distPoolNext) :=
  rfl

theorem allocDist_poolNext (l : dmtr_latency) (t : Nat) :
    (allocDist l t).distPoolNext = l.distPoolNext + 1 := rfl

theorem allocDist_lat (l : dmtr_latency) (t : Nat) :
    (allocDist l t).latencies = l.latencies := rfl

theorem allocDist_name (l : dmtr_latency) (t : Nat) :
    (allocDist l t).name = l.name := rfl

theorem allocDist_pool_self (l : dmtr_latency) (t : Nat) :
    (allocDist l t).distPool l.distPoolNext =
      { l.distPool l.distPoolNext with type := t } := by
  unfold allocDist
  exact Function.update_same _ _ _

theorem allocDist_pool_ne (l : dmtr_latency) (t i : Nat)
    (h : i ≠ l.distPoolNext) :
    (allocDist l t).distPool i = l.distPool i := by
  unfold allocDist
  exact Function.update_noteq h _ _

/-- `sumStep1Dist` on a destination that already has a distribution for the
summand distribution's type. -/
theorem sumStep1Dist_existing (s : dmtr_latency) (d : Latency_Dist)
    (idx : Nat) (hd : s.dists d.type = some idx)
    (hred : ∀ b, (s.distPool idx).buckets b < M32) :
    ∃ s', sumStep1Dist s d = .ok s' ∧
      s'.dists = s.dists ∧ s'.distPoolNext = s.distPoolNext ∧
      s'.latencies = s.latencies ∧ s'.name = s.name ∧
      (∀ i, i ≠ idx → s'.distPool i = s.distPool i) ∧
      statsEq (s'.distPool idx) (s.distPool idx) ∧
      (∀ b, b < 65 → (s'.distPool idx).buckets b =
        ((s.distPool idx).buckets b + d.buckets b) % M32) ∧
      (∀ b, 65 ≤ b → (s'.distPool idx).buckets b =
        (s.distPool idx).buckets b) := by
  obtain ⟨s', h1, h2, h3, h4, h5, h6, h7, h8, h9⟩ :=
    sumStep1Dist_aux d idx 65 0 s hd hred
  refine ⟨s', ?_, h2, h3, h4, h5, h6, h7,
    fun b hb => h8 b (by omega) (by omega), fun b hb => h9 b (by omega)⟩
  unfold sumStep1Dist
  have hrange : List.range LATENCY_NUM_BUCKETS = List.range' 0 65 := by
    rw [List.range_eq_range']
    rfl
  rw [hrange]
  exact h1

/-- `sumStep1Dist` on a destination with no distribution for the summand
distribution's type and a free pool slot: either the scanned buckets are all
empty and nothing happens, or a distribution is created in the next pool
slot and receives the summand's bucket counts. -/
theorem sumStep1Dist_new_aux (d : Latency_Dist) :
    ∀ (len a : Nat) (s : dmtr_latency),
      s.dists d.type = none →
      s.distPool s.distPoolNext = freshDist →
      s.distPoolNext ≠ 5 →
      ((∀ b, a ≤ b → b < a + len → d.buckets b = 0) ∧
       (List.range' a len).foldlM (sumStep1Bucket d) s = .ok s) ∨
      (∃ s', (List.range' a len).foldlM (sumStep1Bucket d) s = .ok s' ∧
        s'.dists = Function.update s.dists d.type (some s.distPoolNext) ∧
        s'.distPoolNext = s.distPoolNext + 1 ∧
        s'.latencies = s.latencies ∧ s'.name = s.name ∧
        (∀ i, i ≠ s.distPoolNext → s'.distPool i = s.distPool i) ∧
        (s'.distPool s.distPoolNext).count = 0 ∧
        (s'.distPool s.distPoolNext).total = 0 ∧
        (s'.distPool s.distPoolNext).min = M64 - 1 ∧
        (s'.distPool s.distPoolNext).max = 0 ∧
        (s'.distPool s.distPoolNext).type = d.type ∧
        (∀ b, a ≤ b → b < a + len →
          (s'.distPool s.distPoolNext).buckets b = d.buckets b % M32) ∧
        (∀ b, b < a ∨ a + len ≤ b →
          (s'.distPool s.distPoolNext).buckets b = 0)) := by
  intro len
  induction len with
  | zero =>
      intro a s hnone hfresh hp5
      exact Or.inl ⟨fun b h1 h2 => absurd h2 (by omega), rfl⟩
  | succ len ih =>
      intro a s hnone hfresh hp5
      rw [List.range'_succ, List.foldlM_cons]
      by_cases hz : d.buckets a = 0
      · have hstep : sumStep1Bucket d s a = .ok s := by
          unfold sumStep1Bucket
          rw [if_pos hz]
        rw [hstep]
        rcases ih (a + 1) s hnone hfresh hp5 with ⟨hzs, hfold⟩ | ⟨s', h1, h2,
            h3, h4, h5, h6, h7, h8, h9, h10, h11, h12, h13⟩
        · refine Or.inl ⟨fun b hb1 hb2 => ?_, hfold⟩
          by_cases hba : b = a
          · subst hba
            exact hz
          · exact hzs b (by omega) (by omega)
        · refine Or.inr ⟨s', h1, h2, h3, h4, h5, h6, h7, h8, h9, h10, h11,
            fun b hb1 hb2 => ?_, fun b hb => h13 b (by omega)⟩
          by_cases hba : b = a
          · subst hba
            rw [h13 b (by omega), hz]
            simp
          · exact h12 b (by omega) (by omega)
      · have hstep : sumStep1Bucket d s a =
            .ok (bumpBucket (allocDist s d.type) s.distPoolNext (2 ^ a)
              (d.buckets a)) := by
          unfold sumStep1Bucket
          rw [if_neg hz, addHist_new s d.type (2 ^ a) (d.buckets a) hnone hp5]
        rw [hstep]
        set s1 := bumpBucket (allocDist s d.type) s.distPoolNext (2 ^ a)
          (d.buckets a) with hs1def
        have hd1 : s1.dists d.type = some s.distPoolNext := by
          rw [hs1def, bumpBucket_dists, allocDist_dists]
          exact Function.update_same _ _ _
        have hbval : ∀ b, (s1.distPool s.distPoolNext).buckets b =
            if b = a then d.buckets a % M32 else 0 := by
          intro b
          rw [hs1def, bumpBucket_pool_self, bucketOf_pow, allocDist_pool_self,
            hfresh]
          by_cases hba : b = a
          · subst hba
            simp [Function.update_same, freshDist]
          · simp [Function.update_noteq hba, freshDist, hba]
        have hstats : (s1.distPool s.distPoolNext).count = 0 ∧
            (s1.distPool s.distPoolNext).total = 0 ∧
            (s1.distPool s.distPoolNext).min = M64 - 1 ∧
            (s1.distPool s.distPoolNext).max = 0 ∧
            (s1.distPool s.distPoolNext).type = d.type := by
          rw [hs1def, bumpBucket_pool_self, allocDist_pool_self, hfresh]
          exact ⟨rfl, rfl, rfl, rfl, rfl⟩
        have hred1 : ∀ b, (s1.distPool s.distPoolNext).buckets b < M32 := by
          intro b
          rw [hbval b]
          by_cases hba : b = a
          · rw [if_pos hba]
            exact Nat.mod_lt _ (by norm_num [M32])
          · rw [if_neg hba]
            norm_num [M32]
        obtain ⟨s', h1, h2, h3, h4, h5, h6, h7, h8, h9⟩ :=
          sumStep1Dist_aux d s.distPoolNext len (a + 1) s1 hd1 hred1
        obtain ⟨e1, e2, e3, e4, e5⟩ := h7
        refine Or.inr ⟨s', h1, ?_, ?_, ?_, ?_, ?_, ?_, ?_, ?_, ?_, ?_, ?_, ?_⟩
        · rw [h2, hs1def, bumpBucket_dists, allocDist_dists]
        · rw [h3, hs1def, bumpBucket_poolNext, allocDist_poolNext]
        · rw [h4, hs1def, bumpBucket_lat, allocDist_lat]
        · rw [h5, hs1def, bumpBucket_name, allocDist_name]
        · intro i hi
          rw [h6 i hi, hs1def, bumpBucket_pool_ne _ _ _ _ _ hi,
            allocDist_pool_ne _ _ _ hi]
        · rw [e1, hstats.1]
        · rw [e2, hstats.2.1]
        · rw [e3, hstats.2.2.1]
        · rw [e4, hstats.2.2.2.1]
        · rw [e5, hstats.2.2.2.2]
        · intro b hb1 hb2
          by_cases hba : b = a
          · subst hba
            rw [h9 b (by omega), hbval b, if_pos rfl]
          · rw [h8 b (by omega) (by omega), hbval b, if_neg hba, Nat.zero_add]
        · intro b hb
          have hba : b ≠ a := by omega
          rw [h9 b (by omega), hbval b, if_neg hba]

theorem sumStep2Tag_skip (summand s : dmtr_latency) (t : Nat)
    (h : summand.dists t = none) : sumStep2Tag summand s t = .ok s := by
  unfold sumStep2Tag
  rw [h]

/-- The second-phase update of one destination distribution: min of mins,
max of maxes, sum of totals and counts (modulo `2 ^ 64`). -/
def mergeStats (dd ds : Latency_Dist) : Latency_Dist :=
  { dd with min := if ds.min < dd.min then ds.min else dd.min
            max := if dd.max < ds.max then ds.max else dd.max
            total := (dd.total + ds.total) % M64
            count := (dd.count + ds.count) % M64 }

theorem sumStep2Tag_hit (summand s : dmtr_latency) (t j i : Nat)
    (hj : summand.dists t = some j) (hi : s.dists t = some i) :
    sumStep2Tag summand s t = .ok { s with
      distPool := Function.update s.distPool i
                    (mergeStats (s.distPool i) (summand.distPool j)) } := by
  unfold sumStep2Tag mergeStats
  rw [hj, hi]

theorem sumStep2Tag_miss (summand s : dmtr_latency) (t j : Nat)
    (hj : summand.dists t = some j) (hi : s.dists t = none) :
    sumStep2Tag summand s t = .error .missingDest := by
  unfold sumStep2Tag
  rw [hj, hi]

theorem range127_split : List.range LATENCY_MAX_DIST =
    List.range' 0 61 ++ eqTag :: List.range' 62 65 := by decide

theorem sumStep2_empty (dest summand : dmtr_latency)
    (habs : ∀ t, summand.dists t = none) : sumStep2 dest summand = .ok dest :=
  foldlM_id _ _ (fun t _ s => sumStep2Tag_skip summand s t (habs t)) dest

/-- Phase 2 on a summand whose only live tag is `'='`, when the destination
also has a distribution for `'='`. -/
theorem sumStep2_single (dest summand : dmtr_latency) (j i : Nat)
    (habs : ∀ t, t ≠ eqTag → summand.dists t = none)
    (hj : summand.dists eqTag = some j) (hi : dest.dists eqTag = some i) :
    sumStep2 dest summand = .ok { dest with
      distPool := Function.update dest.distPool i
                    (mergeStats (dest.distPool i) (summand.distPool j)) } := by
  unfold sumStep2
  rw [range127_split, List.foldlM_append]
  have hskip1 : (List.range' 0 61).foldlM (sumStep2Tag summand) dest =
      .ok dest :=
    foldlM_id _ _ (fun t ht s => sumStep2Tag_skip summand s t (habs t (by
      rw [List.mem_range'_1] at ht
      simp [eqTag]
      omega))) dest
  rw [hskip1]
  show (eqTag :: List.range' 62 65).foldlM (sumStep2Tag summand) dest = _
  rw [List.foldlM_cons, sumStep2Tag_hit summand dest eqTag j i hj hi]
  exact foldlM_id _ _ (fun t ht s => sumStep2Tag_skip summand s t (habs t (by
    rw [List.mem_range'_1] at ht
    simp [eqTag]
    omega))) _

/-- Phase 2 on a summand whose only live tag is `'='`, when the destination
has no distribution for `'='`: the null dereference. -/
theorem sumStep2_missing_eqTag (dest summand : dmtr_latency) (j : Nat)
    (habs : ∀ t, t ≠ eqTag → summand.dists t = none)
    (hj : summand.dists eqTag = some j) (hi : dest.dists eqTag = none) :
    sumStep2 dest summand = .error .missingDest := by
  unfold sumStep2
  rw [range127_split, List.foldlM_append]
  have hskip1 : (List.range' 0 61).foldlM (sumStep2Tag summand) dest =
      .ok dest :=
    foldlM_id _ _ (fun t ht s => sumStep2Tag_skip summand s t (habs t (by
      rw [List.mem_range'_1] at ht
      simp [eqTag]
      omega))) dest
  rw [hskip1]
  show (eqTag :: List.range' 62 65).foldlM (sumStep2Tag summand) dest = _
  rw [List.foldlM_cons, sumStep2Tag_miss summand dest eqTag j hj hi]
  rfl

theorem sumStep1_empty (dest summand : dmtr_latency)
    (h : summand.distPoolNext = 0) : sumStep1 dest summand = .ok dest := by
  unfold sumStep1
  rw [h]
  rfl

theorem sumStep1_single (dest summand : dmtr_latency)
    (h : summand.distPoolNext = 1) :
    sumStep1 dest summand = sumStep1Dist dest (summand.distPool 0) := by
  unfold sumStep1
  rw [h, show List.range 1 = [0] from rfl, List.foldlM_cons]
  cases hx : sumStep1Dist dest (summand.distPool 0) with
  | error e => rfl
  | ok s => rfl

/-!  ### Characterizing `LatencyAdd` and single-tag recorder shapes  -/

theorem addStat_dists (l : dmtr_latency) (v : Nat) :
    (LatencyAddStat l v).dists = l.dists := by
  unfold LatencyAddStat
  split <;> rfl

theorem addStat_distPool (l : dmtr_latency) (v : Nat) :
    (LatencyAddStat l v).distPool = l.distPool := by
  unfold LatencyAddStat
  split <;> rfl

theorem addStat_poolNext (l : dmtr_latency) (v : Nat) :
    (LatencyAddStat l v).distPoolNext = l.distPoolNext := by
  unfold LatencyAddStat
  split <;> rfl

theorem addStat_name (l : dmtr_latency) (v : Nat) :
    (LatencyAddStat l v).name = l.name := by
  unfold LatencyAddStat
  split <;> rfl

/-- The effect of `LatencyAdd` on the distribution that receives value
`v`: one bucket incremented (modulo `2 ^ 32`) and the exact statistics
updated (modulo `2 ^ 64`). -/
def recordDist (d : Latency_Dist) (v : Nat) : Latency_Dist :=
  let db := { d with buckets := Function.update d.buckets (bucketOf v)
                       ((d.buckets (bucketOf v) + 1) % M32) }
  { db with min := if v < db.min then v else db.min
            max := if db.max < v then v else db.max
            total := (db.total + v) % M64
            count := (db.count + 1) % M64 }

theorem LatencyAdd_existing (l : dmtr_latency) (t v idx : Nat)
    (h : l.dists t = some idx) :
    ∃ l', LatencyAdd l t v = .ok l' ∧ l'.dists = l.dists ∧
      l'.distPoolNext = l.distPoolNext ∧ l'.name = l.name ∧
      (∀ i, i ≠ idx → l'.distPool i = l.distPool i) ∧
      l'.distPool idx = recordDist (l.distPool idx) v := by
  unfold LatencyAdd
  rw [addHist_existing l t v 1 idx h]
  refine ⟨_, rfl, ?_, ?_, ?_, ?_, ?_⟩
  · show (LatencyAddStat (bumpBucket l idx v 1) v).dists = l.dists
    rw [addStat_dists, bumpBucket_dists]
  · show (LatencyAddStat (bumpBucket l idx v 1) v).distPoolNext =
      l.distPoolNext
    rw [addStat_poolNext, bumpBucket_poolNext]
  · show (LatencyAddStat (bumpBucket l idx v 1) v).name = l.name
    rw [addStat_name, bumpBucket_name]
  · intro i hi
    show Function.update (LatencyAddStat (bumpBucket l idx v 1) v).distPool
      idx _ i = l.distPool i
    rw [Function.update_noteq hi, addStat_distPool,
      bumpBucket_pool_ne _ _ _ _ _ hi]
  · show Function.update (LatencyAddStat (bumpBucket l idx v 1) v).distPool
      idx _ idx = recordDist (l.distPool idx) v
    rw [Function.update_same, addStat_distPool, bumpBucket_pool_self]
    rfl

theorem LatencyAdd_new (l : dmtr_latency) (t v : Nat)
    (h : l.dists t = none) (hp : l.distPoolNext ≠ 5) :
    ∃ l', LatencyAdd l t v = .ok l' ∧
      l'.dists = Function.update l.dists t (some l.distPoolNext) ∧
      l'.distPoolNext = l.distPoolNext + 1 ∧ l'.name = l.name ∧
      (∀ i, i ≠ l.distPoolNext → l'.distPool i = l.distPool i) ∧
      l'.distPool l.distPoolNext =
        recordDist { l.distPool l.distPoolNext with type := t } v := by
  unfold LatencyAdd
  rw [addHist_new l t v 1 h hp]
  refine ⟨_, rfl, ?_, ?_, ?_, ?_, ?_⟩
  · show (LatencyAddStat (bumpBucket (allocDist l t) l.distPoolNext v 1)
      v).dists = _
    rw [addStat_dists, bumpBucket_dists, allocDist_dists]
  · show (LatencyAddStat (bumpBucket (allocDist l t) l.distPoolNext v 1)
      v).distPoolNext = _
    rw [addStat_poolNext, bumpBucket_poolNext, allocDist_poolNext]
  · show (LatencyAddStat (bumpBucket (allocDist l t) l.distPoolNext v 1)
      v).name = _
    rw [addStat_name, bumpBucket_name, allocDist_name]
  · intro i hi
    show Function.update (LatencyAddStat (bumpBucket (allocDist l t)
      l.distPoolNext v 1) v).distPool l.distPoolNext _ i = l.distPool i
    rw [Function.update_noteq hi, addStat_distPool,
      bumpBucket_pool_ne _ _ _ _ _ hi, allocDist_pool_ne _ _ _ hi]
  · show Function.update (LatencyAddStat (bumpBucket (allocDist l t)
      l.distPoolNext v 1) v).distPool l.distPoolNext _ l.distPoolNext =
      recordDist { l.distPool l.distPoolNext with type := t } v
    rw [Function.update_same, addStat_distPool, bumpBucket_pool_self,
      allocDist_pool_self]
    rfl

theorem recordDist_buckets (d : Latency_Dist) (v : Nat) :
    (recordDist d v).buckets = Function.update d.buckets (bucketOf v)
      ((d.buckets (bucketOf v) + 1) % M32) := rfl

theorem recordDist_count (d : Latency_Dist) (v : Nat) :
    (recordDist d v).count = (d.count + 1) % M64 := rfl

theorem recordDist_type (d : Latency_Dist) (v : Nat) :
    (recordDist d v).type = d.type := rfl

theorem recordDist_red (d : Latency_Dist) (v : Nat)
    (hred : ∀ b, d.buckets b < M32) :
    ∀ b, (recordDist d v).buckets b < M32 := by
  intro b
  rw [recordDist_buckets]
  by_cases hb : b = bucketOf v
  · subst hb
    rw [Function.update_same]
    exact Nat.mod_lt _ (by norm_num [M32])
  · rw [Function.update_noteq hb]
    exact hred b

theorem bucketOf_lt_65 (v : Nat) (hv : v < 2 ^ 64) : bucketOf v < 65 := by
  rw [bucketOf_eq_log2]
  by_cases h0 : v = 0
  · subst h0
    simp [Nat.log2]
  · have := (Nat.log2_lt h0).mpr
      (lt_of_lt_of_le hv (by norm_num : (2 : Nat) ^ 64 ≤ 2 ^ 65))
    omega

theorem sumBuckets_mod_formula (d1 : Latency_Dist) (f g : Nat → Nat)
    (h : ∀ b, b < 65 → d1.buckets b = (f b + g b) % M32) :
    sumBuckets d1 % M32 =
      ((∑ b ∈ Finset.range 65, f b) + ∑ b ∈ Finset.range 65, g b) % M32 := by
  unfold sumBuckets LATENCY_NUM_BUCKETS
  rw [Finset.sum_congr rfl (fun b hb => h b (Finset.mem_range.mp hb))]
  rw [show (∑ b ∈ Finset.range 65, (f b + g b) % M32) % M32 =
    (∑ b ∈ Finset.range 65, (f b + g b)) % M32 from
    (Finset.sum_nat_mod _ _ _).symm]
  rw [Finset.sum_add_distrib]

theorem M32_dvd_M64 : M32 ∣ M64 := ⟨2 ^ 32, by norm_num [M32, M64]⟩

theorem recordDist_inv (d : Latency_Dist) (v : Nat) (hb : bucketOf v < 65)
    (hred : ∀ b, d.buckets b < M32)
    (hI : d.count % M32 = sumBuckets d % M32) :
    (recordDist d v).count % M32 = sumBuckets (recordDist d v) % M32 := by
  have hform : ∀ b', b' < 65 → (recordDist d v).buckets b' =
      (d.buckets b' + (if b' = bucketOf v then 1 else 0)) % M32 := by
    intro b' _
    rw [recordDist_buckets]
    by_cases hb' : b' = bucketOf v
    · subst hb'
      rw [Function.update_same, if_pos rfl]
    · rw [Function.update_noteq hb', if_neg hb', Nat.add_zero]
      exact (Nat.mod_eq_of_lt (hred b')).symm
  have hsum : sumBuckets (recordDist d v) % M32 = (sumBuckets d + 1) % M32 := by
    rw [sumBuckets_mod_formula (recordDist d v) d.buckets _ hform]
    have hind : (∑ b ∈ Finset.range 65,
        (if b = bucketOf v then 1 else 0)) = 1 := by
      rw [Finset.sum_ite_eq' (Finset.range 65) (bucketOf v) (fun _ => 1)]
      rw [if_pos (Finset.mem_range.mpr hb)]
    rw [hind]
    rfl
  calc (recordDist d v).count % M32
      = (d.count + 1) % M64 % M32 := by rw [recordDist_count]
    _ = (d.count + 1) % M32 := Nat.mod_mod_of_dvd _ M32_dvd_M64
    _ = (sumBuckets d + 1) % M32 := Nat.ModEq.add_right 1 hI
    _ = sumBuckets (recordDist d v) % M32 := hsum.symm

/-- A recorder that has never recorded anything (the state produced by
`dmtr_new_latency`, up to the raw-sample buffer and name). -/
def ShapeEmpty (l : dmtr_latency) : Prop :=
  l.distPoolNext = 0 ∧ (∀ t, l.dists t = none) ∧ ∀ i, l.distPool i = freshDist

/-- A recorder whose only live distribution is the `'='` distribution in
pool slot 0, with reduced (`uint32_t`-valued) bucket counters. -/
def ShapeLive (l : dmtr_latency) : Prop :=
  l.distPoolNext = 1 ∧ l.dists eqTag = some 0 ∧
  (∀ t, t ≠ eqTag → l.dists t = none) ∧
  (∀ i, i ≠ 0 → l.distPool i = freshDist) ∧
  (l.distPool 0).type = eqTag ∧ ∀ b, (l.distPool 0).buckets b < M32

/-- Every recorder reachable through create/record/merge is empty or a
single-`'='`-tag recorder. -/
def Shape (l : dmtr_latency) : Prop := ShapeEmpty l ∨ ShapeLive l

/-- The count-vs-buckets invariant, modulo `2 ^ 32`, for every live
distribution. -/
def InvL (l : dmtr_latency) : Prop :=
  ∀ i, i < l.distPoolNext →
    (l.distPool i).count % M32 = sumBuckets (l.distPool i) % M32

theorem sumBuckets_fresh_type (t : Nat) :
    sumBuckets { freshDist with type := t } = 0 :=
  Finset.sum_eq_zero (fun _ _ => rfl)

theorem record_shape (s : dmtr_latency) (v st : Nat) (s' : dmtr_latency)
    (hS : Shape s) (h : dmtr_record_latency s v = .ok (st, s')) :
    Shape s' := by
  unfold dmtr_record_latency at h
  by_cases hv : v = 0
  · rw [if_pos hv] at h
    cases Except.ok.inj h
    exact hS
  · rw [if_neg hv] at h
    cases hAdd : LatencyAdd s eqTag v with
    | error e => rw [hAdd] at h; cases h
    | ok l' =>
        rw [hAdd] at h
        cases Except.ok.inj h
        rcases hS with ⟨h0, hnone, hfresh⟩ | ⟨h1, he, hnone, hfresh, hty, hred⟩
        · obtain ⟨l2, hAdd2, hd, hp, hn, hpoolne, hpool0⟩ :=
            LatencyAdd_new s eqTag v (hnone eqTag) (by rw [h0]; omega)
          cases Except.ok.inj (hAdd2.symm.trans hAdd)
          refine Or.inr ⟨by rw [hp, h0], ?_, ?_, ?_, ?_, ?_⟩
          · rw [hd, Function.update_same, h0]
          · intro t ht
            rw [hd, Function.update_noteq ht, hnone t]
          · intro i hi
            rw [hpoolne i (by rw [h0]; exact hi), hfresh i]
          · rw [show (0 : Nat) = s.distPoolNext from h0.symm, hpool0,
              recordDist_type]
          · rw [show (0 : Nat) = s.distPoolNext from h0.symm, hpool0]
            refine recordDist_red _ _ (fun b => ?_)
            rw [hfresh s.distPoolNext]
            norm_num [freshDist, M32]
        · obtain ⟨l2, hAdd2, hd, hp, hn, hpoolne, hpool0⟩ :=
            LatencyAdd_existing s eqTag v 0 he
          cases Except.ok.inj (hAdd2.symm.trans hAdd)
          refine Or.inr ⟨by rw [hp, h1], by rw [hd]; exact he, ?_, ?_, ?_, ?_⟩
          · intro t ht
            rw [hd]
            exact hnone t ht
          · intro i hi
            rw [hpoolne i hi]
            exact hfresh i hi
          · rw [hpool0, recordDist_type]
            exact hty
          · rw [hpool0]
            exact recordDist_red _ _ hred

theorem record_inv (s : dmtr_latency) (v st : Nat) (s' : dmtr_latency)
    (hS : Shape s) (hI : InvL s) (hv : v < 2 ^ 64)
    (h : dmtr_record_latency s v = .ok (st, s')) : InvL s' := by
  have hb65 : bucketOf v < 65 := bucketOf_lt_65 v hv
  unfold dmtr_record_latency at h
  by_cases hv0 : v = 0
  · rw [if_pos hv0] at h
    cases Except.ok.inj h
    exact hI
  · rw [if_neg hv0] at h
    cases hAdd : LatencyAdd s eqTag v with
    | error e => rw [hAdd] at h; cases h
    | ok l' =>
        rw [hAdd] at h
        cases Except.ok.inj h
        rcases hS with ⟨h0, hnone, hfresh⟩ | ⟨h1, he, hnone, hfresh, hty, hred⟩
        · obtain ⟨l2, hAdd2, hd, hp, hn, hpoolne, hpool0⟩ :=
            LatencyAdd_new s eqTag v (hnone eqTag) (by rw [h0]; omega)
          cases Except.ok.inj (hAdd2.symm.trans hAdd)
          intro i hi
          have hi0 : i = 0 := by
            rw [hp, h0] at hi
            omega
          subst hi0
          rw [show (0 : Nat) = s.distPoolNext from h0.symm, hpool0]
          refine recordDist_inv _ v hb65 ?_ ?_
          · intro b
            rw [hfresh s.distPoolNext]
            norm_num [freshDist, M32]
          · rw [hfresh s.distPoolNext]
            show freshDist.count % M32 = sumBuckets { freshDist with
              type := eqTag } % M32
            rw [sumBuckets_fresh_type]
            rfl
        · obtain ⟨l2, hAdd2, hd, hp, hn, hpoolne, hpool0⟩ :=
            LatencyAdd_existing s eqTag v 0 he
          cases Except.ok.inj (hAdd2.symm.trans hAdd)
          intro i hi
          have hi0 : i = 0 := by
            rw [hp, h1] at hi
            omega
          subst hi0
          rw [hpool0]
          exact recordDist_inv _ v hb65 hred (hI 0 (by rw [h1]; omega))

theorem mergeStats_buckets (dd ds : Latency_Dist) :
    (mergeStats dd ds).buckets = dd.buckets := rfl

theorem mergeStats_type (dd ds : Latency_Dist) :
    (mergeStats dd ds).type = dd.type := rfl

theorem mergeStats_count (dd ds : Latency_Dist) :
    (mergeStats dd ds).count = (dd.count + ds.count) % M64 := rfl

theorem mergeStats_total (dd ds : Latency_Dist) :
    (mergeStats dd ds).total = (dd.total + ds.total) % M64 := rfl

theorem mergeStats_min (dd ds : Latency_Dist) :
    (mergeStats dd ds).min = if ds.min < dd.min then ds.min else dd.min := rfl

theorem mergeStats_max (dd ds : Latency_Dist) :
    (mergeStats dd ds).max = if dd.max < ds.max then ds.max else dd.max := rfl

theorem sumBuckets_mergeStats (dd ds : Latency_Dist) :
    sumBuckets (mergeStats dd ds) = sumBuckets dd := rfl

/-- Range-65 version of `sumStep1Dist_new_aux`. -/
theorem sumStep1Dist_new (s : dmtr_latency) (d : Latency_Dist)
    (hnone : s.dists d.type = none)
    (hfresh : s.distPool s.distPoolNext = freshDist)
    (hp5 : s.distPoolNext ≠ 5) :
    ((∀ b, b < 65 → d.buckets b = 0) ∧ sumStep1Dist s d = .ok s) ∨
    (∃ s', sumStep1Dist s d = .ok s' ∧
      s'.dists = Function.update s.dists d.type (some s.distPoolNext) ∧
      s'.distPoolNext = s.distPoolNext + 1 ∧
      s'.latencies = s.latencies ∧ s'.name = s.name ∧
      (∀ i, i ≠ s.distPoolNext → s'.distPool i = s.distPool i) ∧
      (s'.distPool s.distPoolNext).count = 0 ∧
      (s'.distPool s.distPoolNext).total = 0 ∧
      (s'.distPool s.distPoolNext).min = M64 - 1 ∧
      (s'.distPool s.distPoolNext).max = 0 ∧
      (s'.distPool s.distPoolNext).type = d.type ∧
      (∀ b, b < 65 →
        (s'.distPool s.distPoolNext).buckets b = d.buckets b % M32) ∧
      (∀ b, 65 ≤ b → (s'.distPool s.distPoolNext).buckets b = 0)) := by
  have hrange : List.range LATENCY_NUM_BUCKETS = List.range' 0 65 := by
    rw [List.range_eq_range']
    rfl
  rcases sumStep1Dist_new_aux d 65 0 s hnone hfresh hp5 with ⟨hz, hfold⟩ |
      ⟨s', h1, h2, h3, h4, h5, h6, h7, h8, h9, h10, h11, h12, h13⟩
  · refine Or.inl ⟨fun b hb => hz b (by omega) (by omega), ?_⟩
    unfold sumStep1Dist
    rw [hrange]
    exact hfold
  · refine Or.inr ⟨s', ?_, h2, h3, h4, h5, h6, h7, h8, h9, h10, h11,
      fun b hb => h12 b (by omega) (by omega), fun b hb => h13 b (by omega)⟩
    unfold sumStep1Dist
    rw [hrange]
    exact h1

/-- Merging preserves the single-tag shape and the modular
count-vs-buckets invariant. -/
theorem merge_shape_inv (dest summand r : dmtr_latency)
    (hSd : Shape dest) (hId : InvL dest) (hSs : Shape summand)
    (hIs : InvL summand) (h : Latency_Sum dest summand = .ok r) :
    Shape r ∧ InvL r := by
  unfold Latency_Sum at h
  cases h1 : sumStep1 dest summand with
  | error e => rw [h1] at h; cases h
  | ok s1 =>
  rw [h1] at h
  have h2 : sumStep2 s1 summand = .ok r := h
  rcases hSs with ⟨s0, snone, sfresh⟩ | ⟨sp1, se, snone, sfresh, sty, sred⟩
  · -- empty summand: both phases do nothing
    cases Except.ok.inj ((sumStep1_empty dest summand s0).symm.trans h1)
    cases Except.ok.inj ((sumStep2_empty dest summand snone).symm.trans h2)
    exact ⟨hSd, hId⟩
  · have hstep1 : sumStep1 dest summand =
        sumStep1Dist dest (summand.distPool 0) :=
      sumStep1_single dest summand sp1
    have hssum : (summand.distPool 0).count % M32 =
        sumBuckets (summand.distPool 0) % M32 := hIs 0 (by omega)
    rcases hSd with ⟨d0, dnone, dfresh⟩ | ⟨dp1, de, dnone, dfresh, dty, dred⟩
    · -- dest never recorded: phase 1 creates the distribution (or the
      -- merge dereferences a missing destination and fails)
      have hnone' : dest.dists (summand.distPool 0).type = none := by
        rw [sty]
        exact dnone eqTag
      rcases sumStep1Dist_new dest (summand.distPool 0) hnone' (dfresh _)
          (by omega) with ⟨hz, hok⟩ | ⟨s1', hok, hdists, hpn, hlat, hname,
          hpoolne, hc, ht, hmn, hmx, hty', hbin, hbout⟩
      · obtain rfl : s1 = dest :=
          Except.ok.inj ((hstep1.symm.trans h1).symm.trans hok)
        -- phase 2 dereferences the missing '=' distribution
        cases (sumStep2_missing_eqTag s1 summand 0 snone se
          (dnone eqTag)).symm.trans h2
      · obtain rfl : s1 = s1' :=
          Except.ok.inj ((hstep1.symm.trans h1).symm.trans hok)
        have hi0 : s1.dists eqTag = some 0 := by
          rw [hdists, ← sty, Function.update_same, d0]
        have hr : r = { s1 with
            distPool := Function.update s1.distPool 0
              (mergeStats (s1.distPool 0) (summand.distPool 0)) } := by
          have := (sumStep2_single s1 summand 0 0 snone se hi0).symm.trans h2
          exact (Except.ok.inj this).symm
        have hrd : r.distPool = Function.update s1.distPool 0
            (mergeStats (s1.distPool 0) (summand.distPool 0)) := by rw [hr]
        have hrdists : r.dists = s1.dists := by rw [hr]
        have hrpn : r.distPoolNext = s1.distPoolNext := by rw [hr]
        have hpool00 : s1.distPool 0 = s1.distPool dest.distPoolNext := by
          rw [d0]
        constructor
        · refine Or.inr ⟨?_, ?_, ?_, ?_, ?_, ?_⟩
          · rw [hrpn, hpn, d0]
          · rw [hrdists]
            exact hi0
          · intro t htne
            rw [hrdists, hdists, ← sty] at *
            rw [Function.update_noteq (by rw [sty]; exact htne)]
            exact dnone t
          · intro i hi
            rw [hrd, Function.update_noteq hi, hpoolne i (by omega),
              dfresh i]
          · rw [hrd, Function.update_same, mergeStats_type, hpool00, hty',
              sty]
          · intro b
            rw [hrd, Function.update_same, mergeStats_buckets]
            by_cases hb : b < 65
            · rw [hpool00, hbin b hb]
              exact Nat.mod_lt _ (by norm_num [M32])
            · rw [hpool00, hbout b (by omega)]
              norm_num [M32]
        · intro i hi
          rw [hrpn, hpn, d0] at hi
          have : i = 0 := by omega
          subst this
          rw [hrd, Function.update_same, mergeStats_count,
            sumBuckets_mergeStats]
          have hsum1 : sumBuckets (s1.distPool 0) % M32 =
              ((∑ b ∈ Finset.range 65, (0 : Nat)) +
               ∑ b ∈ Finset.range 65, (summand.distPool 0).buckets b)
                % M32 := by
            refine sumBuckets_mod_formula _ _ _ (fun b hb => ?_)
            rw [Nat.zero_add, hpool00, hbin b hb]
          rw [Nat.mod_mod_of_dvd _ M32_dvd_M64]
          calc ((s1.distPool 0).count + (summand.distPool 0).count) % M32
              = (0 + (summand.distPool 0).count) % M32 := by
                rw [hpool00, hc]
            _ = sumBuckets (summand.distPool 0) % M32 := by
                rw [Nat.zero_add]
                exact hssum
            _ = sumBuckets (s1.distPool 0) % M32 := by
                rw [hsum1, Finset.sum_const_zero, Nat.zero_add]
                rfl
      -- end dest-empty
    · -- dest live: phase 1 folds buckets into slot 0
      have hde' : dest.dists (summand.distPool 0).type = some 0 := by
        rw [sty]
        exact de
      obtain ⟨s1', hok, hdists, hpn, hlat, hname, hpoolne, hstats, hbin,
          hbout⟩ := sumStep1Dist_existing dest (summand.distPool 0) 0
        hde' dred
      obtain rfl : s1 = s1' :=
        Except.ok.inj ((hstep1.symm.trans h1).symm.trans hok)
      obtain ⟨ec, et, emn, emx, ety⟩ := hstats
      have hi0 : s1.dists eqTag = some 0 := by
        rw [hdists]
        exact de
      have hr : r = { s1 with
          distPool := Function.update s1.distPool 0
            (mergeStats (s1.distPool 0) (summand.distPool 0)) } := by
        have := (sumStep2_single s1 summand 0 0 snone se hi0).symm.trans h2
        exact (Except.ok.inj this).symm
      have hrd : r.distPool = Function.update s1.distPool 0
          (mergeStats (s1.distPool 0) (summand.distPool 0)) := by rw [hr]
      have hrdists : r.dists = s1.dists := by rw [hr]
      have hrpn : r.distPoolNext = s1.distPoolNext := by rw [hr]
      constructor
      · refine Or.inr ⟨?_, ?_, ?_, ?_, ?_, ?_⟩
        · rw [hrpn, hpn, dp1]
        · rw [hrdists]
          exact hi0
        · intro t htne
          rw [hrdists, hdists]
          exact dnone t htne
        · intro i hi
          rw [hrd, Function.update_noteq hi, hpoolne i hi, dfresh i hi]
        · rw [hrd, Function.update_same, mergeStats_type, ety, dty]
        · intro b
          rw [hrd, Function.update_same, mergeStats_buckets]
          by_cases hb : b < 65
          · rw [hbin b hb]
            exact Nat.mod_lt _ (by norm_num [M32])
          · rw [hbout b (by omega)]
            exact dred b
      · intro i hi
        rw [hrpn, hpn, dp1] at hi
        have : i = 0 := by omega
        subst this
        rw [hrd, Function.update_same, mergeStats_count,
          sumBuckets_mergeStats]
        have hdsum : (dest.distPool 0).count % M32 =
            sumBuckets (dest.distPool 0) % M32 := hId 0 (by omega)
        have hsum1 : sumBuckets (s1.distPool 0) % M32 =
            ((∑ b ∈ Finset.range 65, (dest.distPool 0).buckets b) +
             ∑ b ∈ Finset.range 65, (summand.distPool 0).buckets b)
              % M32 :=
          sumBuckets_mod_formula _ _ _ (fun b hb => hbin b hb)
        rw [Nat.mod_mod_of_dvd _ M32_dvd_M64, ec]
        calc ((dest.distPool 0).count + (summand.distPool 0).count) % M32
            = (sumBuckets (dest.distPool 0) +
               sumBuckets (summand.distPool 0)) % M32 :=
              Nat.ModEq.add hdsum hssum
          _ = sumBuckets (s1.distPool 0) % M32 := by
              rw [hsum1]
              rfl

/-!  ### Claim C2: count versus sum of buckets  -/

/-- Recorder states reachable through the public create/record/merge
operations (`ns` is a `uint64_t`). -/
inductive Reachable : dmtr_latency → Prop where
  | new (name : String) : Reachable (dmtr_new_latency name)
  | record (l : dmtr_latency) (ns st : Nat) (l' : dmtr_latency) :
      Reachable l → ns < 2 ^ 64 → dmtr_record_latency l ns = .ok (st, l') →
      Reachable l'
  | merge (dest summand r : dmtr_latency) : Reachable dest →
      Reachable summand → Latency_Sum dest summand = .ok r → Reachable r

theorem reachable_shape_inv (l : dmtr_latency) (h : Reachable l) :
    Shape l ∧ InvL l := by
  induction h with
  | new name =>
      exact ⟨Or.inl ⟨rfl, fun _ => rfl, fun _ => rfl⟩,
        fun i hi => absurd hi (by simp [dmtr_new_latency])⟩
  | record l ns st l' hl hns hrec ih =>
      exact ⟨record_shape l ns st l' ih.1 hrec,
        record_inv l ns st l' ih.1 ih.2 hns hrec⟩
  | merge dest summand r hd hs hm ihd ihs =>
      exact merge_shape_inv dest summand r ihd.1 ihd.2 ihs.1 ihs.2 hm

/-- Claim C2 as amended: for every distribution of every recorder reachable
through create, record, and merge, the `count` field is congruent to the
sum of the 65 bucket counters **modulo `2 ^ 32`** (the bucket counters are
`uint32_t` and wrap, while `count` is `uint64_t`, so exact equality fails
once a bucket receives `2 ^ 32` samples; below that bound the congruence
gives exact equality). -/
theorem C2_amended (l : dmtr_latency) (h : Reachable l) (i : Nat)
    (hi : i < l.distPoolNext) :
    (l.distPool i).count % M32 = sumBuckets (l.distPool i) % M32 :=
  (reachable_shape_inv l h).2 i hi

/-- The recorder obtained by recording the value 5 once into a fresh
recorder named `"w2"`. -/
def c2wit : dmtr_latency :=
  match dmtr_record_latency (dmtr_new_latency "w2") 5 with
  | .ok p => p.2
  | .error _ => dmtr_new_latency "w2"

/-- Witness for the amended C2 on a concrete reachable recorder. -/
theorem C2_amended_witness :
    (c2wit.distPool 0).count % M32 = sumBuckets (c2wit.distPool 0) % M32 :=
  C2_amended c2wit
    (Reachable.record (dmtr_new_latency "w2") 5 0 c2wit
      (Reachable.new "w2") (by norm_num) rfl) 0 (by decide)

theorem recordAll_snoc (l : dmtr_latency) (vs : List Nat) (v : Nat) :
    recordAll l (vs ++ [v]) = recordAll l vs >>= fun s =>
      (dmtr_record_latency s v).map (·.2) := by
  unfold recordAll
  rw [List.foldlM_append]
  congr 1
  funext s
  rw [List.foldlM_cons]
  cases hx : (dmtr_record_latency s v).map (·.2) with
  | error e => rfl
  | ok s' => rfl

/-- Recording the value 1 `n` times into a fresh recorder. -/
def recordOnes (n : Nat) : Except SumErr dmtr_latency :=
  recordAll (dmtr_new_latency "c") (List.replicate n 1)

theorem recordOnes_spec : ∀ n, 1 ≤ n → ∃ l, recordOnes n = .ok l ∧
    l.distPoolNext = 1 ∧ l.dists eqTag = some 0 ∧
    (∀ t, t ≠ eqTag → l.dists t = none) ∧
    (l.distPool 0).count = n % M64 ∧
    (l.distPool 0).buckets 0 = n % M32 ∧
    (∀ b, b ≠ 0 → (l.distPool 0).buckets b = 0) := by
  intro n
  induction n with
  | zero => omega
  | succ n ih =>
      intro _
      by_cases hn : 1 ≤ n
      · obtain ⟨l, hok, hpn, he, hnone, hcount, hb0, hbne⟩ := ih hn
        obtain ⟨l', hAdd, hd, hp, hname, hpoolne, hpool0⟩ :=
          LatencyAdd_existing l eqTag 1 0 he
        have hrec : dmtr_record_latency l 1 = .ok (0, l') := by
          unfold dmtr_record_latency
          rw [if_neg (by omega), hAdd]
        refine ⟨l', ?_, by rw [hp, hpn], by rw [hd]; exact he,
          fun t ht => by rw [hd]; exact hnone t ht, ?_, ?_, ?_⟩
        · unfold recordOnes at hok ⊢
          rw [List.replicate_succ', recordAll_snoc, hok]
          show (dmtr_record_latency l 1).map (·.2) = .ok l'
          rw [hrec]
          rfl
        · rw [hpool0, recordDist_count, hcount]
          show (n % M64 + 1) % M64 = (n + 1) % M64
          conv_rhs => rw [Nat.add_mod]
          norm_num [M64]
        · rw [hpool0, recordDist_buckets]
          have hb1 : bucketOf 1 = 0 := rfl
          rw [hb1, Function.update_same, hb0]
          show (n % M32 + 1) % M32 = (n + 1) % M32
          conv_rhs => rw [Nat.add_mod]
          norm_num [M32]
        · intro b hb
          rw [hpool0, recordDist_buckets]
          have hb1 : bucketOf 1 = 0 := rfl
          rw [hb1, Function.update_noteq hb]
          exact hbne b hb
      · have hn0 : n = 0 := by omega
        subst hn0
        obtain ⟨l', hAdd, hd, hp, hname, hpoolne, hpool0⟩ :=
          LatencyAdd_new (dmtr_new_latency "c") eqTag 1 rfl (by decide)
        have hrec : dmtr_record_latency (dmtr_new_latency "c") 1 =
            .ok (0, l') := by
          unfold dmtr_record_latency
          rw [if_neg (by omega), hAdd]
        have hb1 : bucketOf 1 = 0 := rfl
        have hpool0' : l'.distPool 0 =
            recordDist { freshDist with type := eqTag } 1 := hpool0
        refine ⟨l', ?_, ?_, ?_, ?_, ?_, ?_, ?_⟩
        · show recordAll (dmtr_new_latency "c") [1] = .ok l'
          unfold recordAll
          rw [List.foldlM_cons]
          show ((dmtr_record_latency (dmtr_new_latency "c") 1).map (·.2) >>=
            fun s => List.foldlM _ s []) = _
          rw [hrec]
          rfl
        · rw [hp]
          rfl
        · rw [hd, Function.update_same]
          rfl
        · intro t ht
          rw [hd, Function.update_noteq ht]
          rfl
        · rw [hpool0', recordDist_count]
          decide
        · rw [hpool0', recordDist_buckets, hb1, Function.update_same]
          decide
        · intro b hb
          rw [hpool0', recordDist_buckets, hb1, Function.update_noteq hb]
          rfl

def extractD (e : Except SumErr dmtr_latency) : dmtr_latency :=
  match e with
  | .ok l => l
  | .error _ => dmtr_new_latency "c"

/-- The recorder after `2 ^ 32` records of the value 1. -/
def recordBig : dmtr_latency := extractD (recordOnes (2 ^ 32))

theorem recordOnes_reachable : ∀ n l, recordOnes n = .ok l → Reachable l := by
  intro n
  induction n with
  | zero =>
      intro l h
      have h' : Except.ok (dmtr_new_latency "c") = Except.ok l := h
      cases Except.ok.inj h'
      exact Reachable.new "c"
  | succ n ih =>
      intro l h
      unfold recordOnes at h
      rw [List.replicate_succ', recordAll_snoc] at h
      cases hn : recordAll (dmtr_new_latency "c") (List.replicate n 1) with
      | error e => rw [hn] at h; cases h
      | ok s =>
          rw [hn] at h
          have h' : (dmtr_record_latency s 1).map (·.2) = .ok l := h
          cases hr : dmtr_record_latency s 1 with
          | error e => rw [hr] at h'; cases h'
          | ok p =>
              rw [hr] at h'
              have hp2 : p.2 = l := Except.ok.inj h'
              exact Reachable.record s 1 p.1 l (ih s hn) (by norm_num)
                (by rw [hr, ← hp2])

/-- Counterexample to claim C2: after `2 ^ 32` records of the value 1 (a
reachable recorder), the `'='` distribution has `count = 2 ^ 32` but all 65
`uint32_t` bucket counters have wrapped to zero, so
`count ≠ sum(buckets)`. -/
theorem C2_counterexample :
    Reachable recordBig ∧ 0 < recordBig.distPoolNext ∧
    (recordBig.distPool 0).count = 2 ^ 32 ∧
    sumBuckets (recordBig.distPool 0) = 0 ∧
    (recordBig.distPool 0).count ≠ sumBuckets (recordBig.distPool 0) := by
  obtain ⟨l, hok, hpn, he, hnone, hcount, hb0, hbne⟩ :=
    recordOnes_spec (2 ^ 32) (by norm_num)
  have hl : recordBig = l := by
    show extractD (recordOnes (2 ^ 32)) = l
    rw [hok]
    rfl
  rw [hl]
  have hc : (l.distPool 0).count = 2 ^ 32 := by
    rw [hcount]
    norm_num [M64]
  have hs : sumBuckets (l.distPool 0) = 0 := by
    refine Finset.sum_eq_zero (fun b _ => ?_)
    by_cases hb : b = 0
    · subst hb
      rw [hb0]
      norm_num [M32]
    · exact hbne b hb
  exact ⟨recordOnes_reachable _ l hok, by rw [hpn]; omega, hc, hs, by
    rw [hc, hs]
    norm_num⟩

theorem sumStep1Dist_zero (dest : dmtr_latency) (d : Latency_Dist)
    (h : ∀ b, d.buckets b = 0) : sumStep1Dist dest d = .ok dest := by
  unfold sumStep1Dist
  exact foldlM_id _ _ (fun b _ s => by
    unfold sumStep1Bucket
    rw [if_pos (h b)]) dest

/-- Counterexample to claim C5: the recorder `recordBig` (reachable via
`2 ^ 32` records of the value 1) has a live `'='` distribution with
`count = 2 ^ 32 > 0` but all buckets zero (wrapped), so merging it into a
fresh recorder creates nothing in phase 1, and phase 2 dereferences the
missing destination distribution (the C code would dereference a null
`dd`). -/
theorem C5_counterexample :
    Reachable recordBig ∧
    (recordBig.distPool 0).count = 2 ^ 32 ∧
    0 < (recordBig.distPool 0).count ∧
    sumBuckets (recordBig.distPool 0) = 0 ∧
    Latency_Sum (dmtr_new_latency "e") recordBig = .error .missingDest := by
  obtain ⟨l, hok, hpn, he, hnone, hcount, hb0, hbne⟩ :=
    recordOnes_spec (2 ^ 32) (by norm_num)
  have hl : recordBig = l := by
    show extractD (recordOnes (2 ^ 32)) = l
    rw [hok]
    rfl
  rw [hl]
  have hc : (l.distPool 0).count = 2 ^ 32 := by
    rw [hcount]
    norm_num [M64]
  have hz : ∀ b, (l.distPool 0).buckets b = 0 := by
    intro b
    by_cases hb : b = 0
    · subst hb
      rw [hb0]
      norm_num [M32]
    · exact hbne b hb
  have hs : sumBuckets (l.distPool 0) = 0 :=
    Finset.sum_eq_zero (fun b _ => hz b)
  refine ⟨recordOnes_reachable _ l hok, hc, by rw [hc]; norm_num, hs, ?_⟩
  unfold Latency_Sum
  rw [sumStep1_single (dmtr_new_latency "e") l hpn, sumStep1Dist_zero _ _ hz]
  show sumStep2 (dmtr_new_latency "e") l = .error .missingDest
  exact sumStep2_missing_eqTag _ _ 0 hnone he rfl

/-- Amended C3: for two recorders built by create/record/merge, each holding
at least one recorded sample, merging succeeds and the merged `'='`
distribution has `count`/`total` equal to the sums modulo `2 ^ 64`,
`min`/`max` equal to the smaller/larger of the two, and each bucket equal to
the sum of the two original buckets modulo `2 ^ 32`. -/
theorem C3_amended (dest summand : dmtr_latency)
    (hd : Reachable dest) (hs : Reachable summand)
    (hdl : 0 < dest.distPoolNext) (hsl : 0 < summand.distPoolNext) :
    ∃ r, Latency_Sum dest summand = .ok r ∧
      (r.distPool 0).count =
        ((dest.distPool 0).count + (summand.distPool 0).count) % M64 ∧
      (r.distPool 0).total =
        ((dest.distPool 0).total + (summand.distPool 0).total) % M64 ∧
      (r.distPool 0).min =
        (if (summand.distPool 0).min < (dest.distPool 0).min then
          (summand.distPool 0).min else (dest.distPool 0).min) ∧
      (r.distPool 0).max =
        (if (dest.distPool 0).max < (summand.distPool 0).max then
          (summand.distPool 0).max else (dest.distPool 0).max) ∧
      ∀ b, b < 65 → (r.distPool 0).buckets b =
        ((dest.distPool 0).buckets b + (summand.distPool 0).buckets b) %
          M32 := by
  obtain ⟨hSd, hId⟩ := reachable_shape_inv dest hd
  obtain ⟨hSs, hIs⟩ := reachable_shape_inv summand hs
  rcases hSd with ⟨h0, -, -⟩ | ⟨dp1, de, dnone, dfresh, dty, dred⟩
  · omega
  rcases hSs with ⟨h0, -, -⟩ | ⟨sp1, se, snone, sfresh, sty, sred⟩
  · omega
  have hd0 : dest.dists (summand.distPool 0).type = some 0 := by
    rw [sty]
    exact de
  obtain ⟨s1, h1, h1dists, h1pn, h1lat, h1name, h1other, h1stats, h1b,
      h1bhi⟩ := sumStep1Dist_existing dest (summand.distPool 0) 0 hd0 dred
  have hstep1 : sumStep1 dest summand = .ok s1 := by
    rw [sumStep1_single dest summand sp1]
    exact h1
  have hi' : s1.dists eqTag = some 0 := by
    rw [h1dists]
    exact de
  have hstep2 := sumStep2_single s1 summand 0 0 snone se hi'
  obtain ⟨hc, ht, hmn, hmx, hty⟩ := h1stats
  refine ⟨{ s1 with
      distPool := Function.update s1.distPool 0
          (mergeStats (s1.distPool 0) (summand.distPool 0)) },
    ?_, ?_, ?_, ?_, ?_, ?_⟩
  · unfold Latency_Sum
    rw [hstep1]
    exact hstep2
  · show (Function.update s1.distPool 0
        (mergeStats (s1.distPool 0) (summand.distPool 0)) 0).count = _
    rw [Function.update_same, mergeStats_count, hc]
  · show (Function.update s1.distPool 0
        (mergeStats (s1.distPool 0) (summand.distPool 0)) 0).total = _
    rw [Function.update_same, mergeStats_total, ht]
  · show (Function.update s1.distPool 0
        (mergeStats (s1.distPool 0) (summand.distPool 0)) 0).min = _
    rw [Function.update_same, mergeStats_min, hmn]
  · show (Function.update s1.distPool 0
        (mergeStats (s1.distPool 0) (summand.distPool 0)) 0).max = _
    rw [Function.update_same, mergeStats_max, hmx]
  · intro b hb
    show (Function.update s1.distPool 0
        (mergeStats (s1.distPool 0) (summand.distPool 0)) 0).buckets b = _
    rw [Function.update_same, mergeStats_buckets]
    exact h1b b hb

/-- The recorder obtained by recording `2 ^ 63` once into a fresh recorder
named `"a"`. -/
def c3dest : dmtr_latency :=
  extractD ((dmtr_record_latency (dmtr_new_latency "a") (2 ^ 63)).map (·.2))

/-- The recorder obtained by recording `2 ^ 63 + 1` once into a fresh
recorder named `"b"`. -/
def c3summand : dmtr_latency :=
  extractD ((dmtr_record_latency (dmtr_new_latency "b") (2 ^ 63 + 1)).map
    (·.2))

def c3merged : dmtr_latency := extractD (Latency_Sum c3dest c3summand)

set_option maxRecDepth 16000 in
/-- Counterexample to claim C3: recording `2 ^ 63` into one recorder and
`2 ^ 63 + 1` into another and merging gives a `'='` distribution whose
`total` is 1 (the `uint64_t` sum wrapped), not the exact sum
`2 ^ 64 + 1`. -/
theorem C3_counterexample :
    (c3dest.distPool 0).count = 1 ∧
    (c3dest.distPool 0).total = 2 ^ 63 ∧
    (c3summand.distPool 0).count = 1 ∧
    (c3summand.distPool 0).total = 2 ^ 63 + 1 ∧
    Latency_Sum c3dest c3summand = .ok c3merged ∧
    (c3merged.distPool 0).count = 2 ∧
    (c3merged.distPool 0).total = 1 ∧
    (c3merged.distPool 0).total ≠
      (c3dest.distPool 0).total + (c3summand.distPool 0).total :=
  ⟨rfl, rfl, rfl, rfl, rfl, rfl, rfl, by decide⟩

set_option maxRecDepth 16000 in
/-- Witness for the amended C3 on the two concrete recorders `c3dest` and
`c3summand`. -/
theorem C3_amended_witness :
    0 < c3dest.distPoolNext ∧ 0 < c3summand.distPoolNext ∧
    (∃ r, Latency_Sum c3dest c3summand = .ok r ∧
      (r.distPool 0).count =
        ((c3dest.distPool 0).count + (c3summand.distPool 0).count) % M64 ∧
      (r.distPool 0).total =
        ((c3dest.distPool 0).total + (c3summand.distPool 0).total) % M64 ∧
      (r.distPool 0).min =
        (if (c3summand.distPool 0).min < (c3dest.distPool 0).min then
          (c3summand.distPool 0).min else (c3dest.distPool 0).min) ∧
      (r.distPool 0).max =
        (if (c3dest.distPool 0).max < (c3summand.distPool 0).max then
          (c3summand.distPool 0).max else (c3dest.distPool 0).max) ∧
      ∀ b, b < 65 → (r.distPool 0).buckets b =
        ((c3dest.distPool 0).buckets b + (c3summand.distPool 0).buckets b) %
          M32) :=
  ⟨by decide, by decide,
    C3_amended c3dest c3summand
      (Reachable.record (dmtr_new_latency "a") (2 ^ 63) 0 c3dest
        (Reachable.new "a") (by norm_num) (by rfl))
      (Reachable.record (dmtr_new_latency "b") (2 ^ 63 + 1) 0 c3summand
        (Reachable.new "b") (by norm_num) (by rfl))
      (by decide) (by decide)⟩

/-- Amended C5: for recorders built by create/record/merge, if every live
distribution of `summand` still has a non-zero `uint32_t` counter in one of
its 65 buckets, then the merge never reaches phase 2 with a missing
destination distribution. (The original claim inferred the non-zero bucket
from `count > 0`, which fails once a bucket counter wraps to 0.) -/
theorem C5_amended (dest summand : dmtr_latency)
    (hd : Reachable dest) (hs : Reachable summand)
    (hlive : ∀ i, i < summand.distPoolNext →
      ∃ b, b < 65 ∧ (summand.distPool i).buckets b ≠ 0) :
    Latency_Sum dest summand ≠ .error .missingDest := by
  obtain ⟨hSd, hId⟩ := reachable_shape_inv dest hd
  obtain ⟨hSs, hIs⟩ := reachable_shape_inv summand hs
  rcases hSs with ⟨sp0, snone0, sfresh⟩ | ⟨sp1, se, snone, sfresh, sty, sred⟩
  · unfold Latency_Sum
    rw [sumStep1_empty dest summand sp0]
    show sumStep2 dest summand ≠ .error .missingDest
    rw [sumStep2_empty dest summand snone0]
    exact fun h => Except.noConfusion h
  obtain ⟨b, hb65, hbne⟩ := hlive 0 (by rw [sp1]; omega)
  rcases hSd with ⟨dp0, dnone, dfresh⟩ | ⟨dp1, de, dnone, dfresh, dty, dred⟩
  · have hnone : dest.dists (summand.distPool 0).type = none := by
      rw [sty]
      exact dnone eqTag
    have hp5 : dest.distPoolNext ≠ 5 := by
      rw [dp0]
      omega
    rcases sumStep1Dist_new dest (summand.distPool 0) hnone (dfresh _) hp5
        with ⟨hz, -⟩ | ⟨s', h1, h2, h3, h4, h5, h6, h7, h8, h9, h10, h11,
          h12, h13⟩
    · exact absurd (hz b hb65) hbne
    · have hstep1 : sumStep1 dest summand = .ok s' := by
        rw [sumStep1_single dest summand sp1]
        exact h1
      have hi' : s'.dists eqTag = some 0 := by
        rw [h2, sty, dp0, Function.update_same]
      have hstep2 := sumStep2_single s' summand 0 0 snone se hi'
      unfold Latency_Sum
      rw [hstep1]
      show sumStep2 s' summand ≠ .error .missingDest
      rw [hstep2]
      exact fun h => Except.noConfusion h
  · have hd0 : dest.dists (summand.distPool 0).type = some 0 := by
      rw [sty]
      exact de
    obtain ⟨s1, h1, h1dists, h1pn, h1lat, h1name, h1other, h1stats, h1b,
        h1bhi⟩ := sumStep1Dist_existing dest (summand.distPool 0) 0 hd0 dred
    have hstep1 : sumStep1 dest summand = .ok s1 := by
      rw [sumStep1_single dest summand sp1]
      exact h1
    have hi' : s1.dists eqTag = some 0 := by
      rw [h1dists]
      exact de
    have hstep2 := sumStep2_single s1 summand 0 0 snone se hi'
    unfold Latency_Sum
    rw [hstep1]
    show sumStep2 s1 summand ≠ .error .missingDest
    rw [hstep2]
    exact fun h => Except.noConfusion h

/-- The recorder obtained by recording the value 4 once into a fresh
recorder named `"s5"`. -/
def c5summand : dmtr_latency :=
  extractD ((dmtr_record_latency (dmtr_new_latency "s5") 4).map (·.2))

/-- Witness for the amended C5: merging a concrete one-sample recorder into
a fresh recorder does not fail with a missing destination. -/
theorem C5_amended_witness :
    (∀ i, i < c5summand.distPoolNext →
      ∃ b, b < 65 ∧ (c5summand.distPool i).buckets b ≠ 0) ∧
    Latency_Sum (dmtr_new_latency "d5") c5summand ≠ .error .missingDest := by
  have hlive : ∀ i, i < c5summand.distPoolNext →
      ∃ b, b < 65 ∧ (c5summand.distPool i).buckets b ≠ 0 := by
    have hp : c5summand.distPoolNext = 1 := by decide
    intro i hi
    rw [hp] at hi
    have hi0 : i = 0 := by omega
    subst hi0
    exact ⟨2, by omega, by decide⟩
  exact ⟨hlive, C5_amended (dmtr_new_latency "d5") c5summand
    (Reachable.new "d5")
    (Reachable.record (dmtr_new_latency "s5") 4 0 c5summand
      (Reachable.new "s5") (by norm_num) rfl) hlive⟩
